import Mathlib

/-!
A shallow embedding of the resource-reservation subsystem in
`src/slurmctld/reservation.c`, together with theorems settling the frozen
claims about it.  Pure C functions become Lean functions; the global mutable
state (`resv_list`, `top_suffix`, `last_resv_update`, `resv_over_run`) becomes
an explicit `State` value threaded through the operations.  External
collaborators (node inventory, partition catalog, uid resolution, the
`node_name2bitmap` / `bitmap2node_name` pair) are packaged in an `Env` record
of functions, so theorems quantify over them.  Machine integers are modelled
as `Nat` / `Int`; `time_t` is `Int`.  Node bitmaps (`bitstr_t`) are `List
Bool` indexed by node number.
-/

namespace Slurm

/-- Status codes returned by the reservation operations (`SLURM_SUCCESS` and
the `ESLURM_*` codes used in `reservation.c`; `efault` stands for the raw
`EFAULT` errno returned by `load_all_resv_state`). -/
inductive Status where
  | success
  | invalid_time
  | invalid_partition
  | invalid_bank_account
  | user_id_missing
  | invalid_node_name
  | too_many_nodes
  | resv_invalid
  | resv_busy
  | resv_access
  | default_part_not_set
  | efault
deriving DecidableEq

/-- `RESV_STATE_VERSION` from reservation.c. -/
def RESV_STATE_VERSION : String := "VER001"

/-- `INFINITE` (0xffffffff) assigned into a `time_t` end time. -/
def INFINITE_TIME : Int := 4294967295

/-- `NO_VAL` (0xfffffffe) as the unset sentinel of the 32-bit `duration`
request field (the other optional request fields are modelled with
`Option`). -/
def NOVAL_DURATION : Nat := 4294967294

/-- Modelled from the spec: the reservation flag bits and their paired
`NO_*` clear bits (`RESERVE_FLAG_*` live in the external `slurm.h`, not in
`src/`; the spec only requires six distinct single bits, paired as
set/clear).  `update_resv` in `src/` is the code that consumes them. -/
def RESERVE_FLAG_MAINT : Nat := 1

/-- Modelled from the spec: paired clear bit for MAINT. -/
def RESERVE_FLAG_NO_MAINT : Nat := 2

/-- Modelled from the spec: the DAILY flag bit. -/
def RESERVE_FLAG_DAILY : Nat := 4

/-- Modelled from the spec: paired clear bit for DAILY. -/
def RESERVE_FLAG_NO_DAILY : Nat := 8

/-- Modelled from the spec: the WEEKLY flag bit. -/
def RESERVE_FLAG_WEEKLY : Nat := 16

/-- Modelled from the spec: paired clear bit for WEEKLY. -/
def RESERVE_FLAG_NO_WEEKLY : Nat := 32

/-- All sixteen flag bits, used to complement a single bit inside the
`uint16_t` flags field (`~bit` in C). -/
def FLAG_MASK16 : Nat := 65535

/-! ## Bitmaps (`bitstr_t` of src/common/bitstring, an external collaborator)

Modelled from the spec: a node bitmap is a dense set of node indices; the
selector's `bit_pick_cnt` is "deterministic-by-index (lowest-index-first)".
A bitmap is a `List Bool`; index `i` is node `i`. -/

/-- `bit_test`: membership of index `i` (false beyond the end). -/
def bit_test (b : List Bool) (i : Nat) : Bool := b.getD i false

/-- `bit_and`: pointwise conjunction. -/
def bit_and (a b : List Bool) : List Bool := List.zipWith and a b

/-- `bit_or`: pointwise disjunction. -/
def bit_or (a b : List Bool) : List Bool := List.zipWith or a b

/-- `bit_not`: pointwise complement. -/
def bit_not (a : List Bool) : List Bool := a.map (fun x => !x)

/-- `bit_set_count`: number of set bits. -/
def bit_set_count : List Bool → Nat
  | [] => 0
  | x :: xs => (if x then 1 else 0) + bit_set_count xs

/-- `bit_overlap`: number of indices set in both bitmaps. -/
def bit_overlap (a b : List Bool) : Nat := bit_set_count (bit_and a b)

/-- `bit_pick_cnt`: keep the first `n` set bits (lowest index first), clear
the rest. -/
def bit_pick_cnt : Nat → List Bool → List Bool
  | _, [] => []
  | n, x :: xs =>
    if x then
      if n = 0 then false :: bit_pick_cnt 0 xs else true :: bit_pick_cnt (n - 1) xs
    else
      false :: bit_pick_cnt n xs

/-- `bit_nset(0, n-1)` on a freshly allocated bitmap: all `n` indices set. -/
def bit_full (n : Nat) : List Bool := List.replicate n true

/-! ## Comma lists (`strtok_r(s, ",", ...)`) -/

/-- Split a character list at commas (every comma is a separator). -/
def splitCommaChars : List Char → List Char → List (List Char)
  | [], acc => [acc.reverse]
  | c :: cs, acc =>
    if c = ',' then acc.reverse :: splitCommaChars cs [] else splitCommaChars cs (c :: acc)

/-- The token sequence produced by repeated `strtok_r` with delimiter ","
(empty fields are skipped, exactly as `strtok` does). -/
def splitTok (s : String) : List String :=
  ((splitCommaChars s.data []).filter (fun t => t ≠ [])).map (fun cs => String.mk cs)

/-- Join with "," (the canonical string form rebuilt by the update
functions); an empty list yields `none`, mirroring the C code which leaves
the string pointer NULL when the loop body never runs. -/
def joinComma (l : List String) : Option String :=
  match l with
  | [] => none
  | _ => some (String.intercalate "," l)

/-- `atoi` on the digits at the head of a character list (0 when there are
none; the sign handling of `atoi` is irrelevant for name suffixes). -/
def atoiNat (cs : List Char) : Nat :=
  (cs.takeWhile Char.isDigit).foldl (fun acc c => acc * 10 + (c.toNat - 48)) 0

/-- The numeric tail after the last underscore of a name
(`strrchr(name, '_')` followed by `atoi(tmp + 1)`); `none` when the name has
no underscore. -/
def suffixNum (nm : String) : Option Nat :=
  if nm.data.contains '_' then
    some (atoiNat ((nm.data.reverse.takeWhile (fun c => c ≠ '_')).reverse))
  else
    none

/-! ## Data model -/

/-- A partition record, as far as the reservation code reads it
(`find_part_record` and `part_ptr->node_bitmap`). -/
structure PartRec where
  name : String
  node_bitmap : List Bool
deriving DecidableEq

/-- `struct slurmctld_resv` (the fields the code reads or writes; the cached
`part_ptr` is re-derived from `partition` through the environment, and the
magic tag is a memory-safety device with no behavioural content). -/
structure Resv where
  name : String
  resv_id : Nat
  start_time : Int
  end_time : Int
  start_time_prev : Int
  flags : Nat
  partition : Option String
  features : Option String
  node_list : Option String
  node_bitmap : Option (List Bool)
  node_cnt : Nat
  cpu_cnt : Nat
  accounts : Option String
  account_list : List String
  account_cnt : Nat
  users : Option String
  user_list : List Nat
  user_cnt : Nat
  job_cnt : Nat
deriving DecidableEq

/-- `reserve_request_msg_t`.  Fields the C code tests against `NO_VAL` (or
NULL) are `Option`; `duration` keeps its `NO_VAL` sentinel because
`create_resv` tests it for truthiness (`if (resv_desc_ptr->duration)`), not
against `NO_VAL`. -/
structure Req where
  name : Option String
  start_time : Option Int
  end_time : Option Int
  duration : Nat
  flags : Option Nat
  partition : Option String
  accounts : Option String
  users : Option String
  features : Option String
  node_list : Option String
  node_cnt : Option Nat

/-- The external collaborators consumed by reservation.c: node inventory,
partition catalog, availability bitmaps, uid resolution, host-list parsing
and the current time. -/
structure Env where
  nodeCount : Nat
  nodeCpus : List Nat
  nodeFeatures : List (List String)
  availBitmap : List Bool
  idleBitmap : List Bool
  partitions : List PartRec
  defaultPart : Option PartRec
  parseNodeList : String → Option (List Bool)
  bitmapToName : List Bool → String
  uidOf : String → Option Nat
  now : Int

/-- `find_part_record`. -/
def find_part_record (env : Env) (p : String) : Option PartRec :=
  env.partitions.find? (fun P => P.name == p)

/-- `node_name2bitmap` with the special literal "ALL" expanded first, as in
`create_resv`, `update_resv` and `_validate_one_reservation`. -/
def nodeListBitmap (env : Env) (nl : String) : Option (List Bool) :=
  if nl = "ALL" then some (bit_full env.nodeCount) else env.parseNodeList nl

/-- The process-wide mutable state of reservation.c: `resv_list`,
`top_suffix`, `last_resv_update` and the cached `resv_over_run` grace
window. -/
structure State where
  resv_list : List Resv
  top_suffix : Nat
  last_resv_update : Int
  resv_over_run : Int
deriving DecidableEq

/-- `_set_cpu_cnt`: sum the per-node cpu counts over the set bits (the
`fast_schedule` choice between configured and observed cpus is folded into
`Env.nodeCpus`). -/
def set_cpu_cnt (cpus : List Nat) (bm : List Bool) : Nat :=
  (List.zipWith (fun c b => if b then c else 0) cpus bm).sum

/-! ## Principal lists (component A) -/

/-- `_is_account_valid` (a permissive external predicate; the source returns
true unconditionally). -/
def is_account_valid (_a : String) : Bool := true

/-- `_build_account_list`: validate a comma list of account names. -/
def build_account_list (accounts : String) : Except Status (List String) :=
  let toks := splitTok accounts
  if toks.all is_account_valid then .ok toks else .error Status.invalid_bank_account

/-- `_build_uid_list`: resolve a comma list of user names to uids. -/
def build_uid_list (env : Env) (users : String) : Except Status (List Nat) :=
  let rec go : List String → Except Status (List Nat)
    | [] => .ok []
    | t :: rest =>
      match env.uidOf t with
      | none => .error Status.user_id_missing
      | some u =>
        match go rest with
        | .error e => .error e
        | .ok l => .ok (u :: l)
  go (splitTok users)

/-- One parsed token of an update expression: its type (1 = minus, 2 = plus,
3 = set), the stripped name, and (for users) the resolved uid. -/
structure UpdTok where
  ty : Nat
  stem : String
deriving DecidableEq

/-- The prefix classification applied to each token (`tok[0] == '-'`,
`tok[0] == '+'`): type 1 for minus, 2 for plus, 3 for a set-form token,
together with the token stripped of its prefix. -/
def classifyTok (t : String) : Nat × String :=
  match t.data with
  | [] => (3, t)
  | c :: cs =>
    if c = '-' then (1, String.mk cs)
    else if c = '+' then (2, String.mk cs)
    else (3, t)

/-- The token-classification loop of `_update_account_list`: classify each
token, and reject an unprefixed token once any `+`/`-` token has been seen
(`else if (plus_account || minus_account) goto inval`). -/
def parseAcctToks : List String → Bool → Bool → Except Unit (List UpdTok × Bool × Bool)
  | [], plus, minus => .ok ([], plus, minus)
  | t :: rest, plus, minus =>
    let ty := (classifyTok t).1
    let stem := (classifyTok t).2
    if ty = 3 ∧ (plus || minus) = true then .error ()
    else if is_account_valid stem = false then .error ()
    else
      match parseAcctToks rest (plus || ty == 2) (minus || ty == 1) with
      | .error e => .error e
      | .ok (l, p, m) => .ok (⟨ty, stem⟩ :: l, p, m)

/-- Remove the first occurrence of `nm` from a string list (the inner `j`
loop of the minus pass); `none` when absent. -/
def removeFirstStr : List String → String → Option (List String)
  | [], _ => none
  | x :: xs, nm =>
    if x = nm then some xs
    else
      match removeFirstStr xs nm with
      | none => none
      | some l => some (x :: l)

/-- The minus pass of `_update_account_list`: process tokens of type 1 in
order, removing each from the account list; a missing name aborts with the
partially modified record (the C code has removed the earlier names in
place and jumps to `inval` without restoring them). -/
def acctMinusPass : List UpdTok → Resv → Except Resv Resv
  | [], r => .ok r
  | tk :: rest, r =>
    if tk.ty ≠ 1 then acctMinusPass rest r
    else
      match removeFirstStr r.account_list tk.stem with
      | none => .error r
      | some l =>
        acctMinusPass rest { r with account_list := l, account_cnt := r.account_cnt - 1 }

/-- The plus pass of `_update_account_list`: append each type-2 token not
already present (idempotent add, at the end of the list). -/
def acctPlusPass : List UpdTok → Resv → Resv
  | [], r => r
  | tk :: rest, r =>
    if tk.ty ≠ 2 then acctPlusPass rest r
    else if r.account_list.contains tk.stem then acctPlusPass rest r
    else
      acctPlusPass rest
        { r with account_list := r.account_list ++ [tk.stem],
                 account_cnt := r.account_cnt + 1 }

/-- `_update_account_list`. -/
def update_account_list (r : Resv) (accounts : String) : Status × Resv :=
  match parseAcctToks (splitTok accounts) false false with
  | .error _ => (Status.invalid_bank_account, r)
  | .ok (toks, plus, minus) =>
    if (plus || minus) = false then
      (Status.success,
        { r with accounts := some accounts,
                 account_list := toks.map (fun tk => tk.stem),
                 account_cnt := toks.length })
    else
      match (if minus then
               (if r.account_cnt = 0 then Except.error r else acctMinusPass toks r)
             else Except.ok r) with
      | .error r2 => (Status.invalid_bank_account, r2)
      | .ok r2 =>
        let r3 := if minus then { r2 with accounts := joinComma r2.account_list } else r2
        let r4 := if plus then
            let r5 := acctPlusPass toks r3
            { r5 with accounts := joinComma r5.account_list }
          else r3
        (Status.success, r4)

/-- The token-classification loop of `_update_uid_list`: classify each token
(rejecting an unprefixed token after a `+`/`-` one) and resolve its uid.
Each parsed token carries (type, stripped name, uid). -/
def parseUidToks (env : Env) : List String → Bool → Bool →
    Except Unit (List (Nat × String × Nat) × Bool × Bool)
  | [], plus, minus => .ok ([], plus, minus)
  | t :: rest, plus, minus =>
    let ty := (classifyTok t).1
    let stem := (classifyTok t).2
    if ty = 3 ∧ (plus || minus) = true then .error ()
    else
      match env.uidOf stem with
      | none => .error ()
      | some u =>
        match parseUidToks env rest (plus || ty == 2) (minus || ty == 1) with
        | .error e => .error e
        | .ok (l, p, m) => .ok ((ty, stem, u) :: l, p, m)

/-- Remove the first occurrence of uid `u` from the uid array (the inner `j`
loop of the minus pass of `_update_uid_list`). -/
def removeFirstUid : List Nat → Nat → Option (List Nat)
  | [], _ => none
  | x :: xs, u =>
    if x = u then some xs
    else
      match removeFirstUid xs u with
      | none => none
      | some l => some (x :: l)

/-- One qualifying position of `nm` inside `cs` for the in-place character
shuffle of `_update_uid_list`: the occurrence must start the string or
follow a comma, and must end the string or precede a comma. -/
def stripQualPos (cs nm : List Char) : Option Nat :=
  (List.range (cs.length + 1)).find? (fun p =>
    ((cs.drop p).take nm.length == nm) &&
    (p == 0 || (cs.getD (p - 1) ' ') == ',') &&
    (p + nm.length == cs.length || (cs.getD (p + nm.length) ' ') == ','))

/-- One removal step of the character shuffle: drop the occurrence together
with its preceding comma when there is one, else with its trailing comma
when there is one. -/
def stripTokOnce (cs nm : List Char) : Option (List Char) :=
  match stripQualPos cs nm with
  | none => none
  | some p =>
    if p ≠ 0 ∧ cs.getD (p - 1) ' ' = ',' then
      some (cs.take (p - 1) ++ cs.drop (p + nm.length))
    else if cs.getD (p + nm.length) ' ' = ',' then
      some (cs.take p ++ cs.drop (p + nm.length + 1))
    else
      some (cs.take p ++ cs.drop (p + nm.length))

/-- The `strstr`-driven loop that deletes every comma-delimited occurrence
of a removed user name from the `users` string.  The C code shuffles the
characters in place until no qualifying occurrence remains; each removal
shortens the string, so a fuel of `cs.length + 1` iterations reproduces it
exactly. -/
def stripTokAll (cs nm : List Char) : List Char :=
  go (cs.length + 1) cs
where
  go : Nat → List Char → List Char
    | 0, s => s
    | fuel + 1, s =>
      if nm = [] then s
      else
        match stripTokOnce s nm with
        | none => s
        | some s2 => go fuel s2

/-- The minus pass of `_update_uid_list`: per type-1 token, drop the uid
from the array (aborting with the partially modified record when absent)
and then shuffle the name out of the `users` string. -/
def uidMinusPass : List (Nat × String × Nat) → Resv → Except Resv Resv
  | [], r => .ok r
  | (ty, stem, u) :: rest, r =>
    if ty ≠ 1 then uidMinusPass rest r
    else
      match removeFirstUid r.user_list u with
      | none => .error r
      | some l =>
        let users2 :=
          match r.users with
          | none => none
          | some s => some (String.mk (stripTokAll s.data stem.data))
        uidMinusPass rest
          { r with user_list := l, user_cnt := r.user_cnt - 1, users := users2 }

/-- The plus pass of `_update_uid_list`: append each type-2 uid not already
present, and append the name (comma-separated) to the `users` string. -/
def uidPlusPass : List (Nat × String × Nat) → Resv → Resv
  | [], r => r
  | (ty, stem, u) :: rest, r =>
    if ty ≠ 2 then uidPlusPass rest r
    else if r.user_list.contains u then uidPlusPass rest r
    else
      let base := r.users.getD ""
      let users2 := if base ≠ "" then base ++ "," ++ stem else stem
      uidPlusPass rest
        { r with users := some users2, user_list := r.user_list ++ [u],
                 user_cnt := r.user_cnt + 1 }

/-- `_update_uid_list`. -/
def update_uid_list (env : Env) (r : Resv) (users : String) : Status × Resv :=
  match parseUidToks env (splitTok users) false false with
  | .error _ => (Status.user_id_missing, r)
  | .ok (toks, plus, minus) =>
    if (plus || minus) = false then
      (Status.success,
        { r with users := some users,
                 user_list := toks.map (fun tk => tk.2.2),
                 user_cnt := toks.length })
    else
      match (if minus then uidMinusPass toks r else Except.ok r) with
      | .error r2 => (Status.user_id_missing, r2)
      | .ok r2 =>
        (Status.success, if plus then uidPlusPass toks r2 else r2)

/-! ## Overlap test and node selection (components B, C) -/

/-- The per-record test inside `_resv_overlap`: the record is skipped when
its window misses `[startT, endT)` (`end <= start` or `start >= end`), when
it has no bitmap, or when `bit_overlap` is zero. -/
def overlapsWith (r : Resv) (startT endT : Int) (bm : List Bool) : Bool :=
  if r.end_time ≤ startT then false
  else if endT ≤ r.start_time then false
  else
    match r.node_bitmap with
    | none => false
    | some b => bit_overlap b bm != 0

/-- `_resv_overlap` over a given list of other reservations (the caller
removes the record being updated, mirroring the pointer-identity skip). -/
def resv_overlap (lst : List Resv) (startT endT : Int) (bm : List Bool) : Bool :=
  lst.any (fun r => overlapsWith r startT endT bm)

/-- `_resv_overlap` including its `if (!node_bitmap) return false` guard,
for callers holding an optional bitmap. -/
def resv_overlap_opt (lst : List Resv) (startT endT : Int) : Option (List Bool) → Bool
  | none => false
  | some bm => resv_overlap lst startT endT bm

/-- The reservation-subtraction loop of `_select_nodes`: clear the nodes of
every registered reservation whose window intersects the request. -/
def subtractResvNodes (lst : List Resv) (startT endT : Int) (bm : List Bool) : List Bool :=
  lst.foldl (fun acc r =>
    match r.node_bitmap with
    | none => acc
    | some b =>
      if endT ≤ r.start_time ∨ r.end_time ≤ startT then acc
      else bit_and acc (bit_not b)) bm

/-- The feature filter of `_select_nodes`: clear node `i` unless the
requested feature token appears in its configuration's feature array (a node
without a feature array is cleared). -/
def featureFilter (feats : List (List String)) (f : String) : List Bool → Nat → List Bool
  | [], _ => []
  | b :: bs, i => (b && (feats.getD i []).contains f) :: featureFilter feats f bs (i + 1)

/-- The avail bitmap of `_select_nodes` after its three filters: partition
nodes, minus window-intersecting reservations, minus nodes failing the
feature predicate, intersected with the up-node bitmap. -/
def availNodes (env : Env) (lst : List Resv) (startT endT : Int)
    (features : Option String) (partBm : List Bool) : List Bool :=
  let b1 := subtractResvNodes lst startT endT partBm
  let b2 :=
    match features with
    | none => b1
    | some f => featureFilter env.nodeFeatures f b1 0
  bit_and b2 env.availBitmap

/-- The partition resolution at the head of `_select_nodes`: the caller's
partition pointer, or `default_part_loc` when it is NULL. -/
def partOf (env : Env) : Option PartRec → Option PartRec
  | some P => some P
  | none => env.defaultPart

/-- `_select_nodes`: returns the chosen bitmap and the partition used (the
caller's `*part_ptr`, set to the default partition when absent). -/
def select_nodes (env : Env) (lst : List Resv) (startT endT : Int)
    (features : Option String) (nodeCnt : Nat) (part : Option PartRec) :
    Except Status (List Bool × PartRec) :=
  match partOf env part with
  | none => .error Status.default_part_not_set
  | some P =>
    let avail := availNodes env lst startT endT features P.node_bitmap
    if bit_set_count avail < nodeCnt then .error Status.too_many_nodes
    else if nodeCnt ≤ bit_overlap avail env.idleBitmap then
      .ok (bit_pick_cnt nodeCnt (bit_and avail env.idleBitmap), P)
    else
      let idlePick := bit_and avail env.idleBitmap
      let busyPool := bit_and avail (bit_not env.idleBitmap)
      .ok (bit_or idlePick (bit_pick_cnt (nodeCnt - bit_overlap avail env.idleBitmap) busyPool), P)

/-- `_resize_resv`: shrink by dropping idle nodes first, else keep the
lowest-indexed `target` nodes; grow by running `_select_nodes` over the full
registry (which still contains the record itself) and unioning the result. -/
def resize_resv (env : Env) (fullList : List Resv) (r : Resv) (target : Nat) :
    Except Status Resv :=
  let bm := r.node_bitmap.getD []
  let delta : Int := (r.node_cnt : Int) - (target : Int)
  if delta = 0 then .ok r
  else if 0 < delta then
    let (bm2, deltaLeft) :=
      if bit_overlap bm env.idleBitmap ≠ 0 then
        let t1 := bit_and bm env.idleBitmap
        let i := bit_set_count t1
        if (i : Int) > delta then
          (bit_and bm (bit_not (bit_pick_cnt delta.toNat t1)), (0 : Int))
        else
          let bm3 := bit_and bm (bit_not env.idleBitmap)
          (bm3, (bit_set_count bm3 : Int) - (target : Int))
      else (bm, delta)
    let bm4 := if 0 < deltaLeft then bit_pick_cnt target bm2 else bm2
    .ok { r with node_bitmap := some bm4,
                 node_list := some (env.bitmapToName bm4),
                 node_cnt := target }
  else
    match select_nodes env fullList r.start_time r.end_time r.features
        (0 - delta).toNat (r.partition.bind (find_part_record env)) with
    | .error s => .error s
    | .ok (grown, _) =>
      let bm5 := bit_or bm grown
      .ok { r with node_bitmap := some bm5,
                   node_list := some (env.bitmapToName bm5),
                   node_cnt := target }

/-! ## create_resv (component C) -/

/-- `_generate_resv_name`: prefix from the first `accounts` token when the
accounts string is present and non-empty, else from the first `users` token;
suffixed with an underscore and the current `top_suffix`. -/
def generate_resv_name (req : Req) (ts : Nat) : String :=
  let key :=
    match req.accounts with
    | some a => if a ≠ "" then a else req.users.getD ""
    | none => req.users.getD ""
  String.mk (key.data.takeWhile (fun c => c ≠ ',')) ++ "_" ++ toString ts

/-- The start-time validation of `create_resv`: default to `now`, else
require at least `now - 60`. -/
def chkStart (env : Env) (req : Req) : Except Status Int :=
  match req.start_time with
  | some s => if s < env.now - 60 then .error Status.invalid_time else .ok s
  | none => .ok env.now

/-- The end-time validation of `create_resv`: an explicit end must be at
least `now - 60`; otherwise a truthy (non-zero) `duration` gives
`start + duration * 60` — note that the unset `NO_VAL` sentinel is truthy
here — and only `duration == 0` gives `INFINITE`. -/
def chkEnd (env : Env) (req : Req) (startT : Int) : Except Status Int :=
  match req.end_time with
  | some t => if t < env.now - 60 then .error Status.invalid_time else .ok t
  | none =>
    if req.duration ≠ 0 then .ok (startT + (req.duration : Int) * 60)
    else .ok INFINITE_TIME

/-- The partition resolution of `create_resv`. -/
def chkPart (env : Env) (req : Req) : Except Status (Option PartRec) :=
  match req.partition with
  | none => .ok none
  | some p =>
    match find_part_record env p with
    | none => .error Status.invalid_partition
    | some P => .ok (some P)

/-- The validation phase of `create_resv` that does not read the registry:
start/end time bounds (with the `duration` and `INFINITE` defaults), the
flags default, partition resolution, and the account/user list builds, in
the source's order. -/
def createValidate (env : Env) (req : Req) :
    Except Status (Int × Int × Nat × Option PartRec × List String × List Nat) :=
  match chkStart env req with
  | .error e => .error e
  | .ok startT =>
    match chkEnd env req startT with
    | .error e => .error e
    | .ok endT =>
      let flagsv := req.flags.getD 0
      match chkPart env req with
      | .error e => .error e
      | .ok part =>
        if req.accounts = none ∧ req.users = none then .error Status.invalid_bank_account
        else
          match (match req.accounts with
                 | none => Except.ok ([] : List String)
                 | some a => build_account_list a) with
          | .error e => .error e
          | .ok acctList =>
            match (match req.users with
                   | none => Except.ok ([] : List Nat)
                   | some u => build_uid_list env u) with
            | .error e => .error e
            | .ok uidList => .ok (startT, endT, flagsv, part, acctList, uidList)

/-- The node phase of `create_resv`: an explicit `node_list` (or "ALL") is
parsed, checked against `_resv_overlap`, and its popcount becomes the node
count; otherwise a missing `node_cnt` fails, else `_select_nodes` runs.
Returns (bitmap, stored node_list, stored node_cnt, stored partition
name). -/
def createNodePhase (env : Env) (lst : List Resv) (req : Req) (startT endT : Int)
    (part : Option PartRec) :
    Except Status (List Bool × Option String × Nat × Option String) :=
  match req.node_list with
  | some nl =>
    match nodeListBitmap env nl with
    | none => .error Status.invalid_node_name
    | some bm =>
      if resv_overlap lst startT endT bm then .error Status.invalid_time
      else .ok (bm, some nl, bit_set_count bm, req.partition)
  | none =>
    match req.node_cnt with
    | none => .error Status.invalid_node_name
    | some n =>
      match select_nodes env lst startT endT req.features n part with
      | .error e => .error e
      | .ok (bm, P) =>
        .ok (bm, some (env.bitmapToName bm), n,
             match req.partition with
             | some p => some p
             | none => some P.name)

/-- The fresh record built at the end of `create_resv` from the validated
request values. -/
def createRec (env : Env) (req : Req) (ts : Nat) (startT endT : Int) (flagsv : Nat)
    (pname : Option String) (nlistStr : Option String) (ncnt : Nat) (bm : List Bool)
    (acctList : List String) (uidList : List Nat) (nm : String) : Resv :=
  { name := nm
    resv_id := ts
    start_time := startT
    end_time := endT
    start_time_prev := startT
    flags := flagsv
    partition := pname
    features := req.features
    node_list := nlistStr
    node_bitmap := some bm
    node_cnt := ncnt
    cpu_cnt := set_cpu_cnt env.nodeCpus bm
    accounts := req.accounts
    account_list := acctList
    account_cnt := acctList.length
    users := req.users
    user_list := uidList
    user_cnt := uidList.length
    job_cnt := 0 }

/-- `create_resv`.  The result is `none` exactly when the auto-naming
`while (1)` loop never terminates: the loop regenerates the name from the
same `top_suffix` (it was advanced once, before the loop), so a collision on
the first generated name recurs forever. -/
def create_resv (env : Env) (req : Req) (st : State) : Option (Status × State) :=
  match createValidate env req with
  | .error s => some (s, st)
  | .ok (startT, endT, flagsv, part, acctList, uidList) =>
    match createNodePhase env st.resv_list req startT endT part with
    | .error s => some (s, st)
    | .ok (bm, nlistStr, ncnt, pname) =>
      let ts := (if st.top_suffix > 4294967040 then 0 else st.top_suffix) + 1
      match req.name with
      | some nm =>
        if st.resv_list.any (fun r => r.name == nm) then
          some (Status.resv_invalid, { st with top_suffix := ts })
        else
          some (Status.success,
            { st with
                resv_list := st.resv_list ++
                  [createRec env req ts startT endT flagsv pname nlistStr ncnt bm
                    acctList uidList nm],
                top_suffix := ts, last_resv_update := env.now })
      | none =>
        let nm := generate_resv_name req ts
        if st.resv_list.any (fun r => r.name == nm) then none
        else
          some (Status.success,
            { st with
                resv_list := st.resv_list ++
                  [createRec env req ts startT endT flagsv pname nlistStr ncnt bm
                    acctList uidList nm],
                top_suffix := ts, last_resv_update := env.now })

/-! ## update_resv (component C) -/

/-- The flag-processing block of `update_resv`, verbatim: the source uses
bitwise AND both for the set branches and (with a complement) for the clear
branches. -/
def updFlags (req : Req) (r : Resv) : Resv :=
  match req.flags with
  | none => r
  | some f =>
    let g0 := r.flags
    let g1 := if f &&& RESERVE_FLAG_MAINT ≠ 0 then g0 &&& RESERVE_FLAG_MAINT else g0
    let g2 := if f &&& RESERVE_FLAG_NO_MAINT ≠ 0 then g1 &&& (FLAG_MASK16 ^^^ RESERVE_FLAG_MAINT) else g1
    let g3 := if f &&& RESERVE_FLAG_DAILY ≠ 0 then g2 &&& RESERVE_FLAG_DAILY else g2
    let g4 := if f &&& RESERVE_FLAG_NO_DAILY ≠ 0 then g3 &&& (FLAG_MASK16 ^^^ RESERVE_FLAG_DAILY) else g3
    let g5 := if f &&& RESERVE_FLAG_WEEKLY ≠ 0 then g4 &&& RESERVE_FLAG_WEEKLY else g4
    let g6 := if f &&& RESERVE_FLAG_NO_WEEKLY ≠ 0 then g5 &&& (FLAG_MASK16 ^^^ RESERVE_FLAG_WEEKLY) else g5
    { r with flags := g6 }

/-- The partition-clear and partition-set blocks of `update_resv`: an empty
partition string clears the record's partition (and the request field, so
the set block no longer sees it); a named partition must resolve. -/
def updPart (env : Env) (req : Req) (r1 : Resv) : Except (Status × Resv) Resv :=
  let reqPart := if req.partition = some "" then none else req.partition
  let r2 := if req.partition = some "" then { r1 with partition := none } else r1
  match reqPart with
  | none => .ok r2
  | some p =>
    match find_part_record env p with
    | none => .error (Status.invalid_partition, r2)
    | some _ => .ok { r2 with partition := some p }

/-- The accounts block of `update_resv`. -/
def updAccts (req : Req) (r3 : Resv) : Except (Status × Resv) Resv :=
  match req.accounts with
  | none => .ok r3
  | some a =>
    match update_account_list r3 a with
    | (Status.success, r4) => .ok r4
    | (s, r4) => .error (s, r4)

/-- The users block of `update_resv`. -/
def updUsers (env : Env) (req : Req) (r5 : Resv) : Except (Status × Resv) Resv :=
  match req.users with
  | none => .ok r5
  | some u =>
    match update_uid_list env r5 u with
    | (Status.success, r6) => .ok r6
    | (s, r6) => .error (s, r6)

/-- The field phases of `update_resv` that run before the time/node block:
flags, partition clear, partition set, accounts, features, users, in the
source's order.  Errors surface with the record as already modified so far
(the source jumps to `fini` and writes nothing back). -/
def updPhase1 (env : Env) (req : Req) (r0 : Resv) : Status × Resv :=
  match updPart env req (updFlags req r0) with
  | .error e => e
  | .ok r3 =>
    match updAccts req r3 with
    | .error e => e
    | .ok r4 =>
      let r5 :=
        match req.features with
        | none => r4
        | some f => { r4 with features := some f }
      match updUsers env req r5 with
      | .error e => e
      | .ok r6 => (Status.success, r6)

/-- The start check of the `update_resv` time block: a supplied start below
`now - 60` fails; otherwise `start_time_prev` is saved and the start
replaced. -/
def updStart (env : Env) (req : Req) (r0 : Resv) : Except (Status × Resv) Resv :=
  match req.start_time with
  | none => .ok r0
  | some s =>
    if s < env.now - 60 then .error (Status.invalid_time, r0)
    else .ok { r0 with start_time_prev := r0.start_time, start_time := s }

/-- The end check of the `update_resv` time block: a supplied end below
`now - 60` fails (with the start change already applied); a `duration`
other than `NO_VAL` then overrides the end time. -/
def updEnd (env : Env) (req : Req) (r1 : Resv) : Except (Status × Resv) Resv :=
  match req.end_time with
  | none =>
    if req.duration ≠ NOVAL_DURATION then
      .ok { r1 with end_time := r1.start_time + (req.duration : Int) * 60 }
    else .ok r1
  | some t =>
    if t < env.now - 60 then .error (Status.invalid_time, r1)
    else
      if req.duration ≠ NOVAL_DURATION then
        .ok { r1 with end_time := r1.start_time + (req.duration : Int) * 60 }
      else .ok { r1 with end_time := t }

/-- The node-list replacement of `update_resv`: a failing parse restores the
window — to `old_start_time` for BOTH fields, as the source does — and a
successful parse swaps in the new list and bitmap, saving the old ones (a
NULL saved node list later disables the restore and recompute steps). -/
def updNodeList (env : Env) (req : Req) (oldS : Int) (r3 : Resv) :
    Except (Status × Resv) (Resv × Option String × Option (List Bool)) :=
  match req.node_list with
  | none => .ok (r3, none, none)
  | some nl =>
    match nodeListBitmap env nl with
    | none =>
      .error (Status.invalid_node_name, { r3 with start_time := oldS, end_time := oldS })
    | some bm =>
      .ok ({ r3 with node_list := some nl, node_bitmap := some bm },
        r3.node_list, r3.node_bitmap)

/-- The `node_cnt` resize step of `update_resv` (saving the node list and
bitmap as they stand, overwriting any save from the node-list step). -/
def updNodeCnt (env : Env) (req : Req) (pre post : List Resv) (r4 : Resv)
    (onl1 : Option String) (onb1 : Option (List Bool)) :
    Except (Status × Resv) (Resv × Option String × Option (List Bool)) :=
  match req.node_cnt with
  | none => .ok (r4, onl1, onb1)
  | some n =>
    match resize_resv env (pre ++ r4 :: post) r4 n with
    | .error s => .error (s, r4)
    | .ok r5 => .ok (r5, r4.node_list, r4.node_bitmap)

/-- The final `_resv_overlap` check of `update_resv` against the other
records: on overlap restore the saved window and (when the node set
changed) the saved node list and bitmap; on success recompute `node_cnt`
and `cpu_cnt` when the node set changed. -/
def updOverlapCheck (env : Env) (pre post : List Resv) (oldS oldE : Int) (r6 : Resv)
    (oldNL : Option String) (oldNB : Option (List Bool)) : Status × Resv :=
  if resv_overlap_opt (pre ++ post) r6.start_time r6.end_time r6.node_bitmap then
    let r7 := { r6 with start_time := oldS, end_time := oldE }
    (Status.invalid_time,
      if oldNL ≠ none then { r7 with node_list := oldNL, node_bitmap := oldNB } else r7)
  else
    (Status.success,
      if oldNL ≠ none then
        { r6 with node_cnt := bit_set_count (r6.node_bitmap.getD []),
                  cpu_cnt := set_cpu_cnt env.nodeCpus (r6.node_bitmap.getD []) }
      else r6)

/-- The time/node block of `update_resv`: start and end bound checks,
`duration` override, node-list replacement, `node_cnt` resize, and the final
`_resv_overlap` check against the other records, restoring the saved window
(and, when the node set changed, the saved node list and bitmap) on overlap.
`pre`/`post` are the registry entries around the record being updated. -/
def updPhase2 (env : Env) (req : Req) (pre post : List Resv) (r0 : Resv) : Status × Resv :=
  let oldS := r0.start_time
  let oldE := r0.end_time
  match updStart env req r0 with
  | .error e => e
  | .ok r1 =>
    match updEnd env req r1 with
    | .error e => e
    | .ok r3 =>
      match updNodeList env req oldS r3 with
      | .error e => e
      | .ok (r4, onl1, onb1) =>
        match updNodeCnt env req pre post r4 onl1 onb1 with
        | .error e => e
        | .ok (r6, oldNL, oldNB) => updOverlapCheck env pre post oldS oldE r6 oldNL oldNB

/-- `update_resv`: find the first record with the requested name, run the
field phases and the time/node block, and write the (possibly partially
modified) record back even on error, stamping `last_resv_update`. -/
def update_resv (env : Env) (req : Req) (st : State) : Status × State :=
  match req.name with
  | none => (Status.resv_invalid, st)
  | some nm =>
    match st.resv_list.findIdx? (fun r => r.name == nm) with
    | none => (Status.resv_invalid, st)
    | some i =>
      match st.resv_list[i]? with
      | none => (Status.resv_invalid, st)
      | some r0 =>
        let (s1, r1) := updPhase1 env req r0
        if s1 ≠ Status.success then
          (s1, { st with resv_list := st.resv_list.set i r1, last_resv_update := env.now })
        else
          let (s2, r2) := updPhase2 env req (st.resv_list.take i)
              (st.resv_list.drop (i + 1)) r1
          (s2, { st with resv_list := st.resv_list.set i r2, last_resv_update := env.now })

/-! ## Persistence and recovery (component D) -/

/-- The fields of one reservation record in the state file, in the order of
`_pack_resv(..., internal=true)`.  `safe_unpackstr_xmalloc` yields NULL for
a packed NULL string, hence the `Option`s. -/
structure PackedResv where
  accounts : Option String
  end_time : Int
  features : Option String
  name : Option String
  node_cnt : Nat
  node_list : Option String
  partition : Option String
  start_time : Int
  flags : Nat
  users : Option String
  cpu_cnt : Nat
  resv_id : Nat
deriving DecidableEq

/-- A structural view of the checkpoint file: the version string (absent
when the header cannot be unpacked), the header timestamp and `top_suffix`,
the fully unpacked records, and whether the stream broke off mid-record. -/
structure StateFile where
  verStr : Option String
  fileTime : Int
  topSuffix : Nat
  records : List PackedResv
  truncated : Bool
deriving DecidableEq

/-- Rebuild an in-memory record from its packed form; the derived fields
(bitmap, parsed lists, counts, `start_time_prev`) start zeroed, as in the
freshly `xmalloc`ed record of `load_all_resv_state`. -/
def packedToResv (p : PackedResv) : Resv :=
  { name := p.name.getD ""
    resv_id := p.resv_id
    start_time := p.start_time
    end_time := p.end_time
    start_time_prev := 0
    flags := p.flags
    partition := p.partition
    features := p.features
    node_list := p.node_list
    node_bitmap := none
    node_cnt := p.node_cnt
    cpu_cnt := p.cpu_cnt
    accounts := p.accounts
    account_list := []
    account_cnt := 0
    users := p.users
    user_list := []
    user_cnt := 0
    job_cnt := 0 }

/-- `_validate_one_reservation`: reject a record without a name, with an
unresolvable partition, with invalid accounts or users, or with an
unparsable node list; otherwise re-derive the account list, the uid list and
the node bitmap from the canonical strings. -/
def validate_one_reservation (env : Env) (r : Resv) : Option Resv :=
  if r.name = "" then none
  else
    match (match r.partition with
           | none => some r
           | some p =>
             match find_part_record env p with
             | none => none
             | some _ => some r) with
    | none => none
    | some r1 =>
      match (match r1.accounts with
             | none => some r1
             | some a =>
               match build_account_list a with
               | .error _ => none
               | .ok l => some { r1 with account_list := l, account_cnt := l.length }) with
      | none => none
      | some r2 =>
        match (match r2.users with
               | none => some r2
               | some u =>
                 match build_uid_list env u with
                 | .error _ => none
                 | .ok l => some { r2 with user_list := l, user_cnt := l.length }) with
        | none => none
        | some r3 =>
          match r3.node_list with
          | none => some r3
          | some nl =>
            match nodeListBitmap env nl with
            | none => none
            | some bm => some { r3 with node_bitmap := some bm }

/-- `_validate_all_reservations`: purge records that fail validation and
raise `top_suffix` to the numeric suffix of every surviving name. -/
def validate_all_reservations (env : Env) (lst : List Resv) (top : Nat) :
    List Resv × Nat :=
  lst.foldl (fun acc r =>
    match validate_one_reservation env r with
    | none => acc
    | some r2 =>
      (acc.1 ++ [r2],
       match suffixNum r2.name with
       | none => acc.2
       | some k => max acc.2 k)) ([], top)

/-- `load_all_resv_state`.  `recover = 0` only revalidates the in-memory
registry and never consults the file.  `recover ≥ 1` flushes the registry
and reads the file: a missing file or a missing version string makes the
header unpack fail, a wrong version string takes the explicit
incompatibility branch — each returns `EFAULT` with the registry left
flushed; a truncated stream keeps the fully unpacked records, validates
them, and still returns `EFAULT`. -/
def load_all_resv_state (env : Env) (recover : Nat) (file : Option StateFile)
    (st : State) : Status × State :=
  if recover = 0 then
    let (l2, top2) := validate_all_reservations env st.resv_list st.top_suffix
    (Status.success,
      { st with resv_list := l2, top_suffix := top2, last_resv_update := env.now })
  else
    match file with
    | none =>
      let (l2, top2) := validate_all_reservations env [] st.top_suffix
      (Status.efault,
        { st with resv_list := l2, top_suffix := top2, last_resv_update := env.now })
    | some f =>
      match f.verStr with
      | none =>
        (Status.efault, { st with resv_list := [], last_resv_update := env.now })
      | some v =>
        if v ≠ RESV_STATE_VERSION then
          (Status.efault, { st with resv_list := [], last_resv_update := env.now })
        else
          let (l2, top2) := validate_all_reservations env
              (f.records.map packedToResv) f.topSuffix
          if f.truncated then
            (Status.efault,
              { st with resv_list := l2, top_suffix := top2, last_resv_update := env.now })
          else
            (Status.success,
              { st with resv_list := l2, top_suffix := top2, last_resv_update := env.now })

/-! ## The periodic job sweep (component E) -/

/-- The job-record fields consumed by the sweep; the cached
`job_ptr->resv_ptr` pointer is modelled as the index of the record it points
at inside `resv_list`. -/
structure Job where
  job_id : Nat
  resv_name : Option String
  resv_bound : Option Nat
deriving DecidableEq

/-- `begin_job_resv_check`: cache the grace window (`INFINITE` as a uint16
is 0xffff; otherwise minutes are scaled to seconds) and zero every
reservation's `job_cnt`. -/
def begin_job_resv_check (confOverRun : Nat) (st : State) : State :=
  { st with
      resv_over_run :=
        if confOverRun = 65535 then (31536000 : Int) else ((confOverRun * 60 : Nat) : Int),
      resv_list := st.resv_list.map (fun r => { r with job_cnt := 0 }) }

/-- `job_resv_check`: bind the reservation pointer when absent (an unknown
name reports `ESLURM_INVALID_TIME_VALUE` for a defunct reservation),
increment the bound record's `job_cnt`, and then return
`ESLURM_INVALID_TIME_VALUE` when `end_time < now + resv_over_run`, else
success.  (A bound index outside the list would be a dangling pointer in

the C code; the model returns success unchanged there.) -/
def job_resv_check (env : Env) (st : State) (job : Job) : Status × Job × State :=
  match job.resv_name with
  | none => (Status.success, job, st)
  | some nm =>
    match ((match job.resv_bound with
            | some i => some (i, job)
            | none =>
              match st.resv_list.findIdx? (fun r => r.name == nm) with
              | none => none
              | some i => some (i, { job with resv_bound := some i })) :
            Option (Nat × Job)) with
    | none => (Status.invalid_time, job, st)
    | some (i, job2) =>
      match st.resv_list[i]? with
      | none => (Status.success, job2, st)
      | some r =>
        let st2 := { st with
          resv_list := st.resv_list.set i { r with job_cnt := r.job_cnt + 1 } }
        if r.end_time < env.now + st.resv_over_run then (Status.invalid_time, job2, st2)
        else (Status.success, job2, st2)

/-- `fini_job_resv_check`: purge every reservation with `job_cnt == 0` whose
end time has passed, stamping `last_resv_update` when anything was
purged. -/
def fini_job_resv_check (env : Env) (st : State) : State :=
  let kept := st.resv_list.filter (fun r => !(r.job_cnt == 0 && decide (r.end_time ≤ env.now)))
  { st with resv_list := kept,
            last_resv_update :=
              if kept.length = st.resv_list.length then st.last_resv_update else env.now }

/-! ## Concrete fixtures used by the closed theorems and witnesses -/

/-- A two-node environment: one partition "p" holding both nodes, both up
and idle, users alice (uid 100) and bob (uid 101), and a host-list parser
knowing "n0", "n1" and "nBoth". -/
def envFix : Env :=
  { nodeCount := 2
    nodeCpus := [4, 4]
    nodeFeatures := [[], []]
    availBitmap := [true, true]
    idleBitmap := [true, true]
    partitions := [⟨"p", [true, true]⟩]
    defaultPart := some ⟨"p", [true, true]⟩
    parseNodeList := fun s =>
      if s = "n0" then some [true, false]
      else if s = "n1" then some [false, true]
      else if s = "nBoth" then some [true, true]
      else none
    bitmapToName := fun b =>
      if b = [true, false] then "n0"
      else if b = [false, true] then "n1"
      else if b = [true, true] then "nBoth"
      else "nOther"
    uidOf := fun s =>
      if s = "alice" then some 100 else if s = "bob" then some 101 else none
    now := 1000 }

/-- An all-absent request (every optional field unset, `duration` at its
`NO_VAL` sentinel). -/
def reqNil : Req :=
  { name := none
    start_time := none
    end_time := none
    duration := NOVAL_DURATION
    flags := none
    partition := none
    accounts := none
    users := none
    features := none
    node_list := none
    node_cnt := none }

/-- A registered reservation "R" for alice on node 0 over [5000, 6000), with
the DAILY flag set. -/
def resvR : Resv :=
  { name := "R"
    resv_id := 1
    start_time := 5000
    end_time := 6000
    start_time_prev := 5000
    flags := 4
    partition := none
    features := none
    node_list := some "n0"
    node_bitmap := some [true, false]
    node_cnt := 1
    cpu_cnt := 4
    accounts := none
    account_list := []
    account_cnt := 0
    users := some "alice"
    user_list := [100]
    user_cnt := 1
    job_cnt := 0 }

/-- A registry holding only `resvR`. -/
def stOne : State :=
  { resv_list := [resvR], top_suffix := 0, last_resv_update := 0, resv_over_run := 0 }

/-- An empty registry. -/
def stEmpty : State :=
  { resv_list := [], top_suffix := 0, last_resv_update := 0, resv_over_run := 0 }

/-- An update of "R" that sets the MAINT flag and names a partition that
does not resolve. -/
def reqFlagBadPart : Req :=
  { reqNil with name := some "R", flags := some RESERVE_FLAG_MAINT, partition := some "nosuch" }

/-- An update of "R" that only supplies a flags value with the MAINT bit. -/
def reqFlagMaint : Req :=
  { reqNil with name := some "R", flags := some RESERVE_FLAG_MAINT }

/-- A create request for alice on node 1 with the start time after the end
time (both within the 60-second grace of `now = 1000`). -/
def reqStartAfterEnd : Req :=
  { reqNil with name := some "X", users := some "alice", node_list := some "n1",
                start_time := some 2000, end_time := some 1000 }

/-- A nameless create request for alice on node 1 over [1000, 2000) (its
auto-generated name will be "alice_1"). -/
def reqAutoName : Req :=
  { reqNil with users := some "alice", node_list := some "n1",
                start_time := some 1000, end_time := some 2000 }

/-- A registry already holding a reservation named "alice_1" (on node 0, so
`reqAutoName` passes every check up to the naming loop). -/
def stAliceOne : State :=
  { resv_list := [{ resvR with name := "alice_1", start_time := 1000, end_time := 2000 }],
    top_suffix := 0, last_resv_update := 0, resv_over_run := 0 }

/-- Create request A: explicit node list "n0" over [1000, 2000). -/
def reqNodeA : Req :=
  { reqNil with name := some "A", users := some "alice", node_list := some "n0",
                start_time := some 1000, end_time := some 2000 }

/-- Create request B: one node by count over [1000, 2000) (the selector
chooses the lowest-indexed idle node). -/
def reqCntB : Req :=
  { reqNil with name := some "B", users := some "alice", node_cnt := some 1,
                start_time := some 1000, end_time := some 2000 }

/-- A create request with an explicit node list covering both nodes and a
contradicting `node_cnt` of 77. -/
def reqBothNodes : Req :=
  { reqNil with name := some "Y", users := some "alice", node_list := some "nBoth",
                node_cnt := some 77, start_time := some 6500, end_time := some 7000 }

/-- A state file carrying a wrong version string. -/
def fileBadVer : StateFile :=
  { verStr := some "VER000", fileTime := 0, topSuffix := 5, records := [], truncated := false }

/-- A registry whose only record ends at 1010, ten seconds after `now`,
with a cached 600-second grace window. -/
def stEndsSoon : State :=
  { resv_list := [{ resvR with end_time := 1010 }],
    top_suffix := 0, last_resv_update := 0, resv_over_run := 600 }

/-- A job referencing reservation "R" with no cached pointer. -/
def jobR : Job := { job_id := 7, resv_name := some "R", resv_bound := none }

/-! ## Claim theorems: the closed code-bug evaluations and counterexamples -/

/-- Claim C1, counterexample: an `update_resv` that sets a flags value and
names an unresolvable partition returns `ESLURM_INVALID_PARTITION_NAME`, yet
the record's flags field has changed from 4 (DAILY) to 0 — the targeted
record is not left exactly as it was before the call. -/
theorem update_resv_not_transactional_cex :
    (update_resv envFix reqFlagBadPart stOne).1 = Status.invalid_partition ∧
    ((update_resv envFix reqFlagBadPart stOne).2.resv_list.map (fun r => r.flags)) = [0] ∧
    resvR.flags = 4 := by
  refine ⟨rfl, rfl, rfl⟩

/-- Claim C2, counterexample: a create request supplying `start_time = 2000`
and `end_time = 1000` (both above `now - 60`) succeeds, after which the
registry holds a record with `start_time ≥ end_time`; no operation enforces
`start_time < end_time`. -/
theorem create_resv_start_after_end_cex :
    ((create_resv envFix reqStartAfterEnd stOne).map (fun p => p.1)) = some Status.success ∧
    ((create_resv envFix reqStartAfterEnd stOne).map
      (fun p => p.2.resv_list.map (fun r => decide (r.start_time < r.end_time)))) =
      some [true, false] := by
  refine ⟨rfl, rfl⟩

/-- Claim C3, the code evaluated at the failing input: updating reservation
"R" (flags = DAILY = 4) with a flags request naming only MAINT (= 1)
succeeds but leaves flags = 0.  The claim (and the spec's intended
semantics) require the MAINT bit to be set and the unnamed DAILY bit kept,
i.e. flags = 5; the source applies `flags &= RESERVE_FLAG_MAINT`, clearing
every other bit and keeping MAINT only if it was already set. -/
theorem update_resv_flag_and_bug :
    (update_resv envFix reqFlagMaint stOne).1 = Status.success ∧
    ((update_resv envFix reqFlagMaint stOne).2.resv_list.map (fun r => r.flags)) = [0] ∧
    resvR.flags = 4 := by
  refine ⟨rfl, rfl, rfl⟩

/-- Claim C4, the code evaluated at the failing input: a job bound to a
reservation ending at 1010 — ten seconds in the future of `now = 1000`,
with a grace window of 600 — gets `ESLURM_INVALID_TIME_VALUE` although
`end_time + resv_over_run = 1610 > now`, because the source tests
`end_time < now + resv_over_run` instead of `end_time + resv_over_run ≤
now`.  The pointer is bound and `job_cnt` incremented as the claim says. -/
theorem job_resv_check_overrun_bug :
    (job_resv_check envFix stEndsSoon jobR).1 = Status.invalid_time ∧
    (job_resv_check envFix stEndsSoon jobR).2.1.resv_bound = some 0 ∧
    ((job_resv_check envFix stEndsSoon jobR).2.2.resv_list.map (fun r => r.job_cnt)) = [1] ∧
    ((stEndsSoon.resv_list.map (fun r => decide (envFix.now < r.end_time)))) = [true] := by
  refine ⟨rfl, rfl, rfl, rfl⟩

/-- Claim C7, counterexample: the users expression "alice,+bob" mixes a
set-form token with a delta-form token, yet `_update_uid_list` accepts it
(the mixing check only fires for an unprefixed token after a `+`/`-` one),
silently ignoring the set-form token. -/
theorem mixed_expression_accepted_cex :
    (update_uid_list envFix resvR "alice,+bob").1 = Status.success ∧
    (update_uid_list envFix resvR "alice,+bob").2.user_list = [100, 101] := by
  refine ⟨rfl, rfl⟩

/-- Claim C8, the code evaluated at the failing input: a nameless create
request for alice against a registry already holding "alice_1" never
terminates — `top_suffix` was advanced once before the naming loop, and the
loop body regenerates the same name from the same suffix forever.  The
model returns `none` exactly on that divergence. -/
theorem create_resv_autoname_diverges :
    create_resv envFix reqAutoName stAliceOne = none := by
  rfl


/-! ## Supporting lemmas -/

lemma chkStart_error_eq (env : Env) (req : Req) (s : Status)
    (h : chkStart env req = .error s) : s = Status.invalid_time := by
  unfold chkStart at h
  split at h
  · split at h
    · injection h with h2; exact h2.symm
    · exact absurd h (by simp)
  · exact absurd h (by simp)

lemma chkEnd_error_eq (env : Env) (req : Req) (startT : Int) (s : Status)
    (h : chkEnd env req startT = .error s) : s = Status.invalid_time := by
  unfold chkEnd at h
  split at h
  · split at h
    · injection h with h2; exact h2.symm
    · exact absurd h (by simp)
  · split at h <;> exact absurd h (by simp)

lemma chkPart_error_eq (env : Env) (req : Req) (s : Status)
    (h : chkPart env req = .error s) : s = Status.invalid_partition := by
  unfold chkPart at h
  split at h
  · exact absurd h (by simp)
  · split at h
    · injection h with h2; exact h2.symm
    · exact absurd h (by simp)

lemma build_account_list_error_eq (a : String) (s : Status)
    (h : build_account_list a = .error s) : s = Status.invalid_bank_account := by
  unfold build_account_list at h
  dsimp only at h
  split at h
  · exact absurd h (by simp)
  · injection h with h2; exact h2.symm

lemma build_uid_list_go_error_eq (env : Env) (toks : List String) (s : Status)
    (h : build_uid_list.go env toks = .error s) : s = Status.user_id_missing := by
  induction toks generalizing s with
  | nil => exact absurd h (by simp [build_uid_list.go])
  | cons t rest ih =>
    unfold build_uid_list.go at h
    split at h
    · injection h with h2; exact h2.symm
    · split at h
      · rename_i e heq
        injection h with h2
        rw [← h2]
        exact ih e heq
      · exact absurd h (by simp)

lemma build_uid_list_error_eq (env : Env) (u : String) (s : Status)
    (h : build_uid_list env u = .error s) : s = Status.user_id_missing :=
  build_uid_list_go_error_eq env (splitTok u) s h

lemma createValidate_error_ne_success (env : Env) (req : Req) (s : Status)
    (h : createValidate env req = .error s) : s ≠ Status.success := by
  unfold createValidate at h
  split at h
  · rename_i e heq
    injection h with h2
    rw [← h2, chkStart_error_eq env req e heq]
    simp
  · split at h
    · rename_i e heq
      injection h with h2
      rw [← h2, chkEnd_error_eq env req _ e heq]
      simp
    · split at h
      · rename_i e heq
        injection h with h2
        rw [← h2, chkPart_error_eq env req e heq]
        simp
      · split at h
        · injection h with h2
          rw [← h2]
          simp
        · split at h
          · rename_i e heq
            injection h with h2
            split at heq
            · exact absurd heq (by simp)
            · rw [← h2, build_account_list_error_eq _ e heq]
              simp
          · split at h
            · rename_i e heq
              injection h with h2
              split at heq
              · exact absurd heq (by simp)
              · rw [← h2, build_uid_list_error_eq _ _ e heq]
                simp
            · exact absurd h (by simp)

lemma select_nodes_error_mem (env : Env) (lst : List Resv) (startT endT : Int)
    (features : Option String) (nodeCnt : Nat) (part : Option PartRec) (s : Status)
    (h : select_nodes env lst startT endT features nodeCnt part = .error s) :
    s = Status.default_part_not_set ∨ s = Status.too_many_nodes := by
  unfold select_nodes at h
  split at h
  · injection h with h2; exact Or.inl h2.symm
  · dsimp only at h
    split at h
    · injection h with h2; exact Or.inr h2.symm
    · split at h <;> exact absurd h (by simp)

lemma createNodePhase_error_ne_success (env : Env) (lst : List Resv) (req : Req)
    (startT endT : Int) (part : Option PartRec) (s : Status)
    (h : createNodePhase env lst req startT endT part = .error s) :
    s ≠ Status.success := by
  unfold createNodePhase at h
  split at h
  · split at h
    · injection h with h2; rw [← h2]; simp
    · split at h
      · injection h with h2; rw [← h2]; simp
      · exact absurd h (by simp)
  · split at h
    · injection h with h2; rw [← h2]; simp
    · split at h
      · rename_i e heq
        injection h with h2
        rw [← h2]
        rcases select_nodes_error_mem env lst startT endT req.features _ part e heq with h3 | h3 <;>
          simp [h3]
      · exact absurd h (by simp)

lemma create_resv_error_state (env : Env) (req : Req) (st : State) (s : Status) (st2 : State)
    (h : create_resv env req st = some (s, st2)) (hs : s ≠ Status.success) :
    st2.resv_list = st.resv_list := by
  unfold create_resv at h
  split at h
  · injection h with h2
    injection h2 with ha hb
    rw [← hb]
  · split at h
    · injection h with h2
      injection h2 with ha hb
      rw [← hb]
    · dsimp only at h
      split at h
      · split at h
        · injection h with h2
          injection h2 with ha hb
          rw [← hb]
        · injection h with h2
          injection h2 with ha hb
          exact absurd ha.symm hs
      · split at h <;> split at h
        case isTrue.isTrue => exact absurd h (by simp)
        case isTrue.isFalse =>
          injection h with h2
          injection h2 with ha hb
          exact absurd ha.symm hs
        case isFalse.isTrue => exact absurd h (by simp)
        case isFalse.isFalse =>
          injection h with h2
          injection h2 with ha hb
          exact absurd ha.symm hs

/-- Claim C9: with recover at least 1, a missing file, a missing version
string or a mismatched version string makes `load_all_resv_state` return
the data-incompatibility code with the in-memory registry left empty and no
records fabricated; with recover 0 no file is consulted (the result does
not depend on the file argument, by the shape of the equation) and the
registry is only revalidated. -/
theorem load_all_resv_state_spec (env : Env) (recover : Nat) (file : Option StateFile)
    (st : State) :
    (1 ≤ recover → file.bind StateFile.verStr ≠ some RESV_STATE_VERSION →
      load_all_resv_state env recover file st =
        (Status.efault, { st with resv_list := [], last_resv_update := env.now })) ∧
    (recover = 0 →
      load_all_resv_state env recover file st =
        (Status.success,
          { st with
              resv_list := (validate_all_reservations env st.resv_list st.top_suffix).1,
              top_suffix := (validate_all_reservations env st.resv_list st.top_suffix).2,
              last_resv_update := env.now })) := by
  constructor
  · intro h1 h2
    have hne : ¬ recover = 0 := by omega
    unfold load_all_resv_state
    rw [if_neg hne]
    cases file with
    | none => simp [validate_all_reservations]
    | some f =>
      cases hv : f.verStr with
      | none => simp [hv]
      | some v =>
        have hvne : v ≠ RESV_STATE_VERSION := by
          intro e
          exact h2 (by simp [hv, e])
        simp [hv, hvne]
  · intro h
    subst h
    rfl

/-- Claim C9, witness: loading a file whose version string is "VER000" with
recover 1 returns `EFAULT` and empties the registry. -/
theorem load_all_resv_state_spec_witness :
    load_all_resv_state envFix 1 (some fileBadVer) stOne =
      (Status.efault, { stOne with resv_list := [], last_resv_update := envFix.now }) :=
  (load_all_resv_state_spec envFix 1 (some fileBadVer) stOne).1 (by decide) (by decide)

/-- Inversion of the node phase on the explicit-node-list path. -/
lemma createNodePhase_nodelist_inv (env : Env) (lst : List Resv) (req : Req)
    (startT endT : Int) (part : Option PartRec) (nl : String) (bm : List Bool)
    (tup : List Bool × Option String × Nat × Option String)
    (hnl : req.node_list = some nl)
    (hbm : nodeListBitmap env nl = some bm)
    (h : createNodePhase env lst req startT endT part = .ok tup) :
    tup = (bm, some nl, bit_set_count bm, req.partition) ∧
    resv_overlap lst startT endT bm = false := by
  unfold createNodePhase at h
  rw [hnl] at h
  dsimp only at h
  rw [hbm] at h
  dsimp only at h
  split at h
  · exact absurd h (by simp)
  · rename_i hov
    injection h with h2
    exact ⟨h2.symm, by simpa using hov⟩

/-- Appending one element determines `getLast?`. -/
lemma get_last_concat {α : Type} (l : List α) (a : α) : (l ++ [a]).getLast? = some a := by
  simp [List.getLast?_concat]

/-- Claim C10: when `create_resv` is given an explicit `node_list`
(including the "ALL" literal, which `nodeListBitmap` expands) and succeeds,
the stored `node_cnt` is the popcount of the parsed bitmap, and the whole
call is invariant under whatever `node_cnt` the request also carried. -/
theorem create_resv_node_cnt_from_bitmap (env : Env) (req : Req) (st : State)
    (nl : String) (bm : List Bool) (st2 : State)
    (hnl : req.node_list = some nl)
    (hbm : nodeListBitmap env nl = some bm)
    (hok : create_resv env req st = some (Status.success, st2)) :
    (st2.resv_list.getLast?.map (fun r => (r.node_cnt, r.node_bitmap)) =
      some (bit_set_count bm, some bm)) ∧
    ∀ c, create_resv env { req with node_cnt := c } st = create_resv env req st := by
  constructor
  · unfold create_resv at hok
    split at hok
    · rename_i e heq
      injection hok with h2
      injection h2 with ha hb
      exact absurd ha (createValidate_error_ne_success env req e heq)
    · split at hok
      · rename_i e heq
        injection hok with h2
        injection h2 with ha hb
        exact absurd ha (createNodePhase_error_ne_success env st.resv_list req _ _ _ e heq)
      · rename_i bm0 nst nc pn heqn
        obtain ⟨htup, hov⟩ := createNodePhase_nodelist_inv env st.resv_list req _ _ _ nl bm
          (bm0, nst, nc, pn) hnl hbm heqn
        simp only [Prod.mk.injEq] at htup
        obtain ⟨hb1, hb2, hb3, hb4⟩ := htup
        subst hb1
        subst hb2
        subst hb3
        subst hb4
        dsimp only at hok
        split at hok
        · split at hok
          · injection hok with h2
            injection h2 with ha hb
            exact absurd ha.symm (by simp)
          · injection hok with h2
            injection h2 with ha hb
            rw [← hb]
            simp [get_last_concat, createRec]
        · split at hok <;> split at hok
          case isTrue.isTrue => exact absurd hok (by simp)
          case isTrue.isFalse =>
            injection hok with h2
            injection h2 with ha hb
            rw [← hb]
            simp [get_last_concat, createRec]
          case isFalse.isTrue => exact absurd hok (by simp)
          case isFalse.isFalse =>
            injection hok with h2
            injection h2 with ha hb
            rw [← hb]
            simp [get_last_concat, createRec]
  · intro c
    cases req
    dsimp only at hnl
    subst hnl
    rfl

/-- The state after creating `reqBothNodes` (both nodes, contradicting
`node_cnt = 77`) on top of `stOne`. -/
def stAfterBoth : State :=
  ((create_resv envFix reqBothNodes stOne).getD (Status.success, stOne)).2

/-- Claim C10, witness: the record created from the two-node list stores
`node_cnt = 2` (the popcount) with the parsed bitmap, ignoring the
requested 77; replacing the supplied `node_cnt` by 5 changes nothing. -/
theorem create_resv_node_cnt_from_bitmap_witness :
    (stAfterBoth.resv_list.getLast?.map (fun r => (r.node_cnt, r.node_bitmap)) =
      some (bit_set_count [true, true], some [true, true])) ∧
    create_resv envFix { reqBothNodes with node_cnt := some 5 } stOne =
      create_resv envFix reqBothNodes stOne :=
  ⟨(create_resv_node_cnt_from_bitmap envFix reqBothNodes stOne "nBoth" [true, true]
      stAfterBoth rfl rfl rfl).1,
   (create_resv_node_cnt_from_bitmap envFix reqBothNodes stOne "nBoth" [true, true]
      stAfterBoth rfl rfl rfl).2 (some 5)⟩

/-- Inversion of the start-time check when a start time was supplied. -/
lemma chkStart_some_inv (env : Env) (req : Req) (s v : Int)
    (hs : req.start_time = some s) (h : chkStart env req = .ok v) :
    v = s ∧ env.now - 60 ≤ s := by
  unfold chkStart at h
  rw [hs] at h
  dsimp only at h
  split at h
  · exact absurd h (by simp)
  · rename_i hlt
    injection h with h2
    exact ⟨h2.symm, by omega⟩

/-- Inversion of the end-time check when an end time was supplied. -/
lemma chkEnd_some_inv (env : Env) (req : Req) (startT e v : Int)
    (he : req.end_time = some e) (h : chkEnd env req startT = .ok v) :
    v = e ∧ env.now - 60 ≤ e := by
  unfold chkEnd at h
  rw [he] at h
  dsimp only at h
  split at h
  · exact absurd h (by simp)
  · rename_i hlt
    injection h with h2
    exact ⟨h2.symm, by omega⟩

/-- A successful validation phase pins the start and end values to the time
checks. -/
lemma createValidate_ok_inv (env : Env) (req : Req) (startT endT : Int) (fl : Nat)
    (part : Option PartRec) (al : List String) (ul : List Nat)
    (h : createValidate env req = .ok (startT, endT, fl, part, al, ul)) :
    chkStart env req = .ok startT ∧ chkEnd env req startT = .ok endT := by
  unfold createValidate at h
  split at h
  · exact absurd h (by simp)
  · rename_i s0 heqS
    split at h
    · exact absurd h (by simp)
    · rename_i e0 heqE
      split at h
      · exact absurd h (by simp)
      · split at h
        · exact absurd h (by simp)
        · split at h
          · exact absurd h (by simp)
          · split at h
            · exact absurd h (by simp)
            · injection h with h2
              injection h2 with hx h3
              injection h3 with hy h4
              subst hx
              subst hy
              exact ⟨heqS, heqE⟩

/-- Claim C2, amended: the operations enforce only the lower bounds
`now - 60` on supplied times — a successful `create_resv` with explicit
start and end stores exactly those values and guarantees each is at least
`now - 60`, but nothing relates them to each other (the counterexample
creates a record with `start_time > end_time`). -/
theorem create_resv_time_lower_bounds (env : Env) (req : Req) (st st2 : State)
    (s e : Int)
    (hs : req.start_time = some s) (he : req.end_time = some e)
    (hok : create_resv env req st = some (Status.success, st2)) :
    st2.resv_list.getLast?.map (fun r => (r.start_time, r.end_time)) = some (s, e) ∧
    env.now - 60 ≤ s ∧ env.now - 60 ≤ e := by
  unfold create_resv at hok
  split at hok
  · rename_i e0 heq
    injection hok with h2
    injection h2 with ha hb
    exact absurd ha (createValidate_error_ne_success env req e0 heq)
  · rename_i sT eT fl part al ul heqv
    obtain ⟨hst, hen⟩ := createValidate_ok_inv env req sT eT fl part al ul heqv
    obtain ⟨hv1, hb1⟩ := chkStart_some_inv env req s sT hs hst
    obtain ⟨hv2, hb2⟩ := chkEnd_some_inv env req sT e eT he hen
    subst hv1
    subst hv2
    refine ⟨?_, hb1, hb2⟩
    split at hok
    · rename_i e0 heq
      injection hok with h2
      injection h2 with ha hb
      exact absurd ha (createNodePhase_error_ne_success env st.resv_list req _ _ _ e0 heq)
    · dsimp only at hok
      split at hok
      · split at hok
        · injection hok with h2
          injection h2 with ha hb
          exact absurd ha.symm (by simp)
        · injection hok with h2
          injection h2 with ha hb
          rw [← hb]
          simp [get_last_concat, createRec]
      · split at hok <;> split at hok
        case isTrue.isTrue => exact absurd hok (by simp)
        case isTrue.isFalse =>
          injection hok with h2
          injection h2 with ha hb
          rw [← hb]
          simp [get_last_concat, createRec]
        case isFalse.isTrue => exact absurd hok (by simp)
        case isFalse.isFalse =>
          injection hok with h2
          injection h2 with ha hb
          rw [← hb]
          simp [get_last_concat, createRec]

/-- The state after the start-after-end create of the C2 counterexample. -/
def stAfterBad : State :=
  ((create_resv envFix reqStartAfterEnd stOne).getD (Status.success, stOne)).2

/-- Claim C2, witness for the amended theorem: the successful create of
`reqStartAfterEnd` stores exactly start 2000 and end 1000, both at least
`now - 60 = 940`. -/
theorem create_resv_time_lower_bounds_witness :
    (stAfterBad.resv_list.getLast?.map (fun r => (r.start_time, r.end_time)) =
      some ((2000 : Int), (1000 : Int))) ∧
    envFix.now - 60 ≤ (2000 : Int) ∧ envFix.now - 60 ≤ (1000 : Int) :=
  create_resv_time_lower_bounds envFix reqStartAfterEnd stOne stAfterBad 2000 1000
    rfl rfl rfl

/-- Every token classifies as minus, plus or set. -/
lemma classifyTok_cases (t : String) :
    (classifyTok t).1 = 1 ∨ (classifyTok t).1 = 2 ∨ (classifyTok t).1 = 3 := by
  unfold classifyTok
  split
  · simp
  · split
    · simp
    · split <;> simp

/-- Once a delta token has been seen, a later set-form token aborts the
user-expression parse. -/
lemma parseUidToks_after_delta (env : Env) :
    ∀ (toks : List String) (p m : Bool), (p || m) = true →
    (∃ u ∈ toks, (classifyTok u).1 = 3) →
    parseUidToks env toks p m = .error () := by
  intro toks
  induction toks with
  | nil =>
    intro p m hpm hex
    obtain ⟨u, hu, _⟩ := hex
    exact absurd hu (by simp)
  | cons t rest ih =>
    intro p m hpm hex
    by_cases hty : (classifyTok t).1 = 3
    · simp [parseUidToks, hty, hpm]
    · have hflag : ((p || (classifyTok t).1 == 2) || (m || (classifyTok t).1 == 1)) = true := by
        rcases Bool.or_eq_true_iff.mp hpm with h | h <;> simp [h]
      obtain ⟨u, hu, hu3⟩ := hex
      have hur : u ∈ rest := by
        rcases List.mem_cons.mp hu with h | h
        · exact absurd (h ▸ hu3) hty
        · exact h
      cases huid : env.uidOf (classifyTok t).2 with
      | none => simp [parseUidToks, hty, huid]
      | some u0 =>
        simp [parseUidToks, hty, huid, ih _ _ hflag ⟨u, hur, hu3⟩]

/-- A delta token followed (anywhere later) by a set-form token makes the
user-expression parse fail. -/
lemma parseUidToks_mix_err (env : Env) :
    ∀ (toks : List String) (p m : Bool) (i j : Nat) (d u : String),
    toks[i]? = some d → (classifyTok d).1 ≠ 3 →
    toks[j]? = some u → (classifyTok u).1 = 3 → i < j →
    parseUidToks env toks p m = .error () := by
  intro toks
  induction toks with
  | nil =>
    intro p m i j d u hd _ _ _ _
    exact absurd hd (by simp)
  | cons t rest ih =>
    intro p m i j d u hd hdd hu hu3 hij
    cases i with
    | zero =>
      have hdt : t = d := by simpa using hd
      subst hdt
      cases j with
      | zero => exact absurd hij (by omega)
      | succ j0 =>
        have hur : u ∈ rest := List.getElem?_mem (show rest[j0]? = some u by simpa using hu)
        cases huid : env.uidOf (classifyTok t).2 with
        | none => simp [parseUidToks, hdd, huid]
        | some u0 =>
          have hflag : ((p || (classifyTok t).1 == 2) || (m || (classifyTok t).1 == 1)) = true := by
            rcases classifyTok_cases t with h | h | h <;> simp [h]
            exact absurd h hdd
          simp [parseUidToks, hdd, huid,
            parseUidToks_after_delta env rest _ _ hflag ⟨u, hur, hu3⟩]
    | succ i0 =>
      cases j with
      | zero => exact absurd hij (by omega)
      | succ j0 =>
        have hd2 : rest[i0]? = some d := by simpa using hd
        have hu2 : rest[j0]? = some u := by simpa using hu
        by_cases hty : (classifyTok t).1 = 3
        · by_cases hpm : (p || m) = true
          · simp [parseUidToks, hty, hpm]
          · cases huid : env.uidOf (classifyTok t).2 with
            | none => simp [parseUidToks, hty, hpm, huid]
            | some u0 =>
              simp [parseUidToks, hty, hpm, huid,
                ih _ _ i0 j0 d u hd2 hdd hu2 hu3 (by omega)]
        · have hur : u ∈ rest := List.getElem?_mem hu2
          have hflag : ((p || (classifyTok t).1 == 2) || (m || (classifyTok t).1 == 1)) = true := by
            rcases classifyTok_cases t with h | h | h <;> simp [h]
            exact absurd h hty
          cases huid : env.uidOf (classifyTok t).2 with
          | none => simp [parseUidToks, hty, huid]
          | some u0 =>
            simp [parseUidToks, hty, huid,
              parseUidToks_after_delta env rest _ _ hflag ⟨u, hur, hu3⟩]

/-- Once a delta token has been seen, a later set-form token aborts the
account-expression parse. -/
lemma parseAcctToks_after_delta :
    ∀ (toks : List String) (p m : Bool), (p || m) = true →
    (∃ u ∈ toks, (classifyTok u).1 = 3) →
    parseAcctToks toks p m = .error () := by
  intro toks
  induction toks with
  | nil =>
    intro p m hpm hex
    obtain ⟨u, hu, _⟩ := hex
    exact absurd hu (by simp)
  | cons t rest ih =>
    intro p m hpm hex
    by_cases hty : (classifyTok t).1 = 3
    · simp [parseAcctToks, hty, hpm]
    · have hflag : ((p || (classifyTok t).1 == 2) || (m || (classifyTok t).1 == 1)) = true := by
        rcases Bool.or_eq_true_iff.mp hpm with h | h <;> simp [h]
      obtain ⟨u, hu, hu3⟩ := hex
      have hur : u ∈ rest := by
        rcases List.mem_cons.mp hu with h | h
        · exact absurd (h ▸ hu3) hty
        · exact h
      simp [parseAcctToks, hty, is_account_valid, ih _ _ hflag ⟨u, hur, hu3⟩]

/-- A delta token followed (anywhere later) by a set-form token makes the
account-expression parse fail. -/
lemma parseAcctToks_mix_err :
    ∀ (toks : List String) (p m : Bool) (i j : Nat) (d u : String),
    toks[i]? = some d → (classifyTok d).1 ≠ 3 →
    toks[j]? = some u → (classifyTok u).1 = 3 → i < j →
    parseAcctToks toks p m = .error () := by
  intro toks
  induction toks with
  | nil =>
    intro p m i j d u hd _ _ _ _
    exact absurd hd (by simp)
  | cons t rest ih =>
    intro p m i j d u hd hdd hu hu3 hij
    cases i with
    | zero =>
      have hdt : t = d := by simpa using hd
      subst hdt
      cases j with
      | zero => exact absurd hij (by omega)
      | succ j0 =>
        have hur : u ∈ rest := List.getElem?_mem (show rest[j0]? = some u by simpa using hu)
        have hflag : ((p || (classifyTok t).1 == 2) || (m || (classifyTok t).1 == 1)) = true := by
          rcases classifyTok_cases t with h | h | h <;> simp [h]
          exact absurd h hdd
        simp [parseAcctToks, hdd, is_account_valid,
          parseAcctToks_after_delta rest _ _ hflag ⟨u, hur, hu3⟩]
    | succ i0 =>
      cases j with
      | zero => exact absurd hij (by omega)
      | succ j0 =>
        have hd2 : rest[i0]? = some d := by simpa using hd
        have hu2 : rest[j0]? = some u := by simpa using hu
        by_cases hty : (classifyTok t).1 = 3
        · by_cases hpm : (p || m) = true
          · simp [parseAcctToks, hty, hpm]
          · simp [parseAcctToks, hty, hpm, is_account_valid,
              ih _ _ i0 j0 d u hd2 hdd hu2 hu3 (by omega)]
        · have hur : u ∈ rest := List.getElem?_mem hu2
          have hflag : ((p || (classifyTok t).1 == 2) || (m || (classifyTok t).1 == 1)) = true := by
            rcases classifyTok_cases t with h | h | h <;> simp [h]
            exact absurd h hty
          simp [parseAcctToks, hty, is_account_valid,
            parseAcctToks_after_delta rest _ _ hflag ⟨u, hur, hu3⟩]

/-- Claim C7, amended: mixing is rejected only in one order — an update
expression in which a delta-form token precedes a set-form token fails with
the corresponding status (`USER_ID_MISSING` for users,
`INVALID_BANK_ACCOUNT` for accounts) and leaves the record unchanged; in
the other order the expression is accepted and the set-form tokens are
silently ignored (see the counterexample). -/
theorem delta_then_set_rejected (env : Env) (r r2 : Resv) (expr : String)
    (i j : Nat) (d u : String)
    (hd : (splitTok expr)[i]? = some d) (hdd : (classifyTok d).1 ≠ 3)
    (hu : (splitTok expr)[j]? = some u) (huu : (classifyTok u).1 = 3)
    (hij : i < j) :
    update_uid_list env r expr = (Status.user_id_missing, r) ∧
    update_account_list r2 expr = (Status.invalid_bank_account, r2) := by
  constructor
  · unfold update_uid_list
    rw [parseUidToks_mix_err env (splitTok expr) false false i j d u hd hdd hu huu hij]
  · unfold update_account_list
    rw [parseAcctToks_mix_err (splitTok expr) false false i j d u hd hdd hu huu hij]

/-- Claim C7, witness for the amended theorem: "+bob,alice" (delta before
set) is rejected by both list updaters with the record untouched. -/
theorem delta_then_set_rejected_witness :
    update_uid_list envFix resvR "+bob,alice" = (Status.user_id_missing, resvR) ∧
    update_account_list resvR "+bob,alice" = (Status.invalid_bank_account, resvR) :=
  delta_then_set_rejected envFix resvR resvR "+bob,alice" 0 1 "+bob" "alice"
    (by decide) (by decide) (by decide) (by decide) (by decide)

/-- The four fields the transactional claim is about. -/
def tnFields (r : Resv) : Int × Int × Option String × Option (List Bool) :=
  (r.start_time, r.end_time, r.node_list, r.node_bitmap)

/-- The minus pass of the account update never touches the time or node
fields, in either outcome. -/
lemma acctMinusPass_tn : ∀ (toks : List UpdTok) (r r2 : Resv),
    (acctMinusPass toks r = .error r2 ∨ acctMinusPass toks r = .ok r2) →
    tnFields r2 = tnFields r := by
  intro toks
  induction toks with
  | nil =>
    intro r r2 h
    rcases h with h | h
    · exact absurd h (by simp [acctMinusPass])
    · injection h with h2
      rw [← h2]
  | cons tk rest ih =>
    intro r r2 h
    unfold acctMinusPass at h
    by_cases hty : tk.ty ≠ 1
    · rw [if_pos hty] at h
      exact ih r r2 h
    · rw [if_neg hty] at h
      cases hrm : removeFirstStr r.account_list tk.stem with
      | none =>
        rw [hrm] at h
        rcases h with h | h
        · injection h with h2
          rw [← h2]
        · exact absurd h (by simp)
      | some l =>
        rw [hrm] at h
        exact (ih _ r2 h).trans rfl

/-- The plus pass of the account update never touches the time or node
fields. -/
lemma acctPlusPass_tn : ∀ (toks : List UpdTok) (r : Resv),
    tnFields (acctPlusPass toks r) = tnFields r := by
  intro toks
  induction toks with
  | nil => intro r; rfl
  | cons tk rest ih =>
    intro r
    unfold acctPlusPass
    split
    · exact ih r
    · split
      · exact ih r
      · exact (ih _).trans rfl

/-- `_update_account_list` never touches the time or node fields. -/
lemma update_account_list_tn (r : Resv) (a : String) :
    tnFields (update_account_list r a).2 = tnFields r := by
  unfold update_account_list
  split
  · rfl
  · split
    · rfl
    · split
      · rename_i r2 heq
        split at heq
        · rename_i hmin
          split at heq
          · injection heq with h2
            rw [← h2]
          · exact acctMinusPass_tn _ r r2 (Or.inl heq)
        · exact absurd heq (by simp)
      · rename_i r2 heq
        have hbase : tnFields r2 = tnFields r := by
          split at heq
          · rename_i hmin
            split at heq
            · exact absurd heq (by simp)
            · exact acctMinusPass_tn _ r r2 (Or.inr heq)
          · injection heq with h2
            rw [← h2]
        dsimp only
        split
        · split
          · exact (acctPlusPass_tn _ _).trans hbase
          · exact (acctPlusPass_tn _ _).trans hbase
        · split
          · exact hbase
          · exact hbase

/-- The minus pass of the user update never touches the time or node
fields, in either outcome. -/
lemma uidMinusPass_tn : ∀ (toks : List (Nat × String × Nat)) (r r2 : Resv),
    (uidMinusPass toks r = .error r2 ∨ uidMinusPass toks r = .ok r2) →
    tnFields r2 = tnFields r := by
  intro toks
  induction toks with
  | nil =>
    intro r r2 h
    rcases h with h | h
    · exact absurd h (by simp [uidMinusPass])
    · injection h with h2
      rw [← h2]
  | cons tk rest ih =>
    intro r r2 h
    unfold uidMinusPass at h
    by_cases hty : tk.1 ≠ 1
    · rw [if_pos hty] at h
      exact ih r r2 h
    · rw [if_neg hty] at h
      cases hrm : removeFirstUid r.user_list tk.2.2 with
      | none =>
        rw [hrm] at h
        rcases h with h | h
        · injection h with h2
          rw [← h2]
        · exact absurd h (by simp)
      | some l =>
        rw [hrm] at h
        exact (ih _ r2 h).trans rfl

/-- The plus pass of the user update never touches the time or node
fields. -/
lemma uidPlusPass_tn : ∀ (toks : List (Nat × String × Nat)) (r : Resv),
    tnFields (uidPlusPass toks r) = tnFields r := by
  intro toks
  induction toks with
  | nil => intro r; rfl
  | cons tk rest ih =>
    intro r
    unfold uidPlusPass
    split
    · exact ih r
    · split
      · exact ih r
      · exact (ih _).trans rfl

/-- `_update_uid_list` never touches the time or node fields. -/
lemma update_uid_list_tn (env : Env) (r : Resv) (u : String) :
    tnFields (update_uid_list env r u).2 = tnFields r := by
  unfold update_uid_list
  cases hp : parseUidToks env (splitTok u) false false with
  | error e => rfl
  | ok v =>
    obtain ⟨toks, plus, minus⟩ := v
    dsimp only
    split
    · rfl
    · cases hm : (if minus = true then uidMinusPass toks r else Except.ok r) with
      | error r2 =>
        dsimp only
        split at hm
        · exact uidMinusPass_tn toks r r2 (Or.inl hm)
        · exact absurd hm (by simp)
      | ok r2 =>
        have hbase : tnFields r2 = tnFields r := by
          split at hm
          · exact uidMinusPass_tn toks r r2 (Or.inr hm)
          · injection hm with h2
            rw [← h2]
        dsimp only
        split
        · exact (uidPlusPass_tn _ _).trans hbase
        · exact hbase

/-- The flags block never touches the time or node fields. -/
lemma updFlags_tn (req : Req) (r : Resv) : tnFields (updFlags req r) = tnFields r := by
  unfold updFlags
  split <;> rfl

/-- The partition block never touches the time or node fields. -/
lemma updPart_tn (env : Env) (req : Req) (r : Resv) (s : Status) (r2 : Resv)
    (h : updPart env req r = .error (s, r2) ∨ updPart env req r = .ok r2) :
    tnFields r2 = tnFields r := by
  unfold updPart at h
  rcases h with h | h
  all_goals dsimp only at h
  all_goals (repeat' split at h)
  all_goals
    first
    | (injection h with h3; injection h3 with h4 h5; rw [← h5]; simp [tnFields])
    | (injection h with h3; rw [← h3]; simp [tnFields])
    | simp_all [tnFields]

/-- The partition block only fails with the invalid-partition status. -/
lemma updPart_error_status (env : Env) (req : Req) (r : Resv) (s : Status) (r2 : Resv)
    (h : updPart env req r = .error (s, r2)) : s = Status.invalid_partition := by
  unfold updPart at h
  dsimp only at h
  repeat' split at h
  all_goals simp_all

/-- `_update_account_list` returns success or the bank-account error. -/
lemma update_account_list_status (r : Resv) (a : String) :
    (update_account_list r a).1 = Status.success ∨
    (update_account_list r a).1 = Status.invalid_bank_account := by
  unfold update_account_list
  split
  · exact Or.inr rfl
  · split
    · exact Or.inl rfl
    · split
      · exact Or.inr rfl
      · exact Or.inl rfl

/-- `_update_uid_list` returns success or the user-id error. -/
lemma update_uid_list_status (env : Env) (r : Resv) (u : String) :
    (update_uid_list env r u).1 = Status.success ∨
    (update_uid_list env r u).1 = Status.user_id_missing := by
  unfold update_uid_list
  split
  · exact Or.inr rfl
  · split
    · exact Or.inl rfl
    · split
      · exact Or.inr rfl
      · exact Or.inl rfl

/-- The accounts block never touches the time or node fields. -/
lemma updAccts_tn (req : Req) (r : Resv) (s : Status) (r2 : Resv)
    (h : updAccts req r = .error (s, r2) ∨ updAccts req r = .ok r2) :
    tnFields r2 = tnFields r := by
  unfold updAccts at h
  rcases h with h | h
  · split at h
    · exact absurd h (by simp)
    · rename_i a ha
      split at h
      · exact absurd h (by simp)
      · rename_i s4 r4 hne heq
        injection h with h2
        injection h2 with hx hy
        rw [← hy]
        rw [show r4 = (update_account_list r a).2 from congrArg Prod.snd heq.symm]
        exact update_account_list_tn r a
  · split at h
    · injection h with h2
      rw [← h2]
    · rename_i a ha
      split at h
      · rename_i r4 heq
        injection h with h2
        rw [← h2]
        rw [show r4 = (update_account_list r a).2 from congrArg Prod.snd heq.symm]
        exact update_account_list_tn r a
      · exact absurd h (by simp)

/-- The accounts block only fails with the bank-account error. -/
lemma updAccts_error_status (req : Req) (r : Resv) (s : Status) (r2 : Resv)
    (h : updAccts req r = .error (s, r2)) : s = Status.invalid_bank_account := by
  unfold updAccts at h
  split at h
  · exact absurd h (by simp)
  · rename_i a ha
    split at h
    · exact absurd h (by simp)
    · rename_i s4 r4 hne heq
      injection h with h2
      injection h2 with hx hy
      rcases update_account_list_status r a with hs | hs
      · rw [heq] at hs
        exact absurd (show s4 = Status.success from hs) (by
          intro e
          exact hne (by rw [e]))
      · rw [heq] at hs
        rw [← hx]
        exact hs

/-- The users block never touches the time or node fields. -/
lemma updUsers_tn (env : Env) (req : Req) (r : Resv) (s : Status) (r2 : Resv)
    (h : updUsers env req r = .error (s, r2) ∨ updUsers env req r = .ok r2) :
    tnFields r2 = tnFields r := by
  unfold updUsers at h
  rcases h with h | h
  · split at h
    · exact absurd h (by simp)
    · rename_i u hu
      split at h
      · exact absurd h (by simp)
      · rename_i s4 r4 hne heq
        injection h with h2
        injection h2 with hx hy
        rw [← hy]
        rw [show r4 = (update_uid_list env r u).2 from congrArg Prod.snd heq.symm]
        exact update_uid_list_tn env r u
  · split at h
    · injection h with h2
      rw [← h2]
    · rename_i u hu
      split at h
      · rename_i r4 heq
        injection h with h2
        rw [← h2]
        rw [show r4 = (update_uid_list env r u).2 from congrArg Prod.snd heq.symm]
        exact update_uid_list_tn env r u
      · exact absurd h (by simp)

/-- The users block only fails with the user-id error. -/
lemma updUsers_error_status (env : Env) (req : Req) (r : Resv) (s : Status) (r2 : Resv)
    (h : updUsers env req r = .error (s, r2)) : s = Status.user_id_missing := by
  unfold updUsers at h
  split at h
  · exact absurd h (by simp)
  · rename_i u hu
    split at h
    · exact absurd h (by simp)
    · rename_i s4 r4 hne heq
      injection h with h2
      injection h2 with hx hy
      rcases update_uid_list_status env r u with hs | hs
      · rw [heq] at hs
        exact absurd (show s4 = Status.success from hs) (by
          intro e
          exact hne (by rw [e]))
      · rw [heq] at hs
        rw [← hx]
        exact hs

/-- The whole pre-time phase of `update_resv` never touches the time or
node fields. -/
lemma updPhase1_tn (env : Env) (req : Req) (r0 : Resv) :
    tnFields (updPhase1 env req r0).2 = tnFields r0 := by
  unfold updPhase1
  have hflags := updFlags_tn req r0
  split
  · rename_i e heq
    obtain ⟨s1, r1⟩ := e
    exact (updPart_tn env req _ s1 r1 (Or.inl heq)).trans hflags
  · rename_i r3 heq
    have h3 : tnFields r3 = tnFields r0 :=
      (updPart_tn env req _ Status.success r3 (Or.inr heq)).trans hflags
    split
    · rename_i e heq2
      obtain ⟨s2, r4⟩ := e
      exact (updAccts_tn req r3 s2 r4 (Or.inl heq2)).trans h3
    · rename_i r4 heq2
      have h4 : tnFields r4 = tnFields r3 := updAccts_tn req r3 Status.success r4 (Or.inr heq2)
      cases hf : req.features with
      | none =>
        dsimp only
        split
        · rename_i e heq3
          obtain ⟨s3, r6⟩ := e
          exact ((updUsers_tn env req r4 s3 r6 (Or.inl heq3)).trans h4).trans h3
        · rename_i r6 heq3
          exact ((updUsers_tn env req r4 Status.success r6 (Or.inr heq3)).trans h4).trans h3
      | some f =>
        dsimp only
        split
        · rename_i e heq3
          obtain ⟨s3, r6⟩ := e
          exact (((updUsers_tn env req _ s3 r6 (Or.inl heq3)).trans rfl).trans h4).trans h3
        · rename_i r6 heq3
          exact (((updUsers_tn env req _ Status.success r6 (Or.inr heq3)).trans rfl).trans h4).trans h3

/-- The pre-time phase only reports success, invalid-partition,
bank-account or user-id statuses (never the time status). -/
lemma updPhase1_status (env : Env) (req : Req) (r0 : Resv) :
    (updPhase1 env req r0).1 = Status.success ∨
    (updPhase1 env req r0).1 = Status.invalid_partition ∨
    (updPhase1 env req r0).1 = Status.invalid_bank_account ∨
    (updPhase1 env req r0).1 = Status.user_id_missing := by
  unfold updPhase1
  split
  · rename_i e heq
    obtain ⟨s1, r1⟩ := e
    exact Or.inr (Or.inl (updPart_error_status env req _ s1 r1 heq))
  · split
    · rename_i e heq2
      obtain ⟨s2, r4⟩ := e
      exact Or.inr (Or.inr (Or.inl (updAccts_error_status req _ s2 r4 heq2)))
    · cases hf : req.features with
      | none =>
        dsimp only
        split
        · rename_i e heq3
          obtain ⟨s3, r6⟩ := e
          exact Or.inr (Or.inr (Or.inr (updUsers_error_status env req _ s3 r6 heq3)))
        · exact Or.inl rfl
      | some f =>
        dsimp only
        split
        · rename_i e heq3
          obtain ⟨s3, r6⟩ := e
          exact Or.inr (Or.inr (Or.inr (updUsers_error_status env req _ s3 r6 heq3)))
        · exact Or.inl rfl

/-- A start time within bounds never makes the start check fail, and it
preserves the node fields. -/
lemma updStart_ok (env : Env) (req : Req) (r0 : Resv)
    (hs : ∀ s, req.start_time = some s → env.now - 60 ≤ s) :
    ∃ r1, updStart env req r0 = .ok r1 ∧ r1.node_list = r0.node_list ∧
      r1.node_bitmap = r0.node_bitmap := by
  unfold updStart
  cases hst : req.start_time with
  | none => exact ⟨r0, rfl, rfl, rfl⟩
  | some s =>
    have hb := hs s hst
    dsimp only
    rw [if_neg (show ¬ s < env.now - 60 by omega)]
    exact ⟨_, rfl, rfl, rfl⟩

/-- An end time within bounds never makes the end check fail, and it
preserves the node fields. -/
lemma updEnd_ok (env : Env) (req : Req) (r1 : Resv)
    (he : ∀ t, req.end_time = some t → env.now - 60 ≤ t) :
    ∃ r3, updEnd env req r1 = .ok r3 ∧ r3.node_list = r1.node_list ∧
      r3.node_bitmap = r1.node_bitmap := by
  unfold updEnd
  cases het : req.end_time with
  | none =>
    dsimp only
    split
    · exact ⟨_, rfl, rfl, rfl⟩
    · exact ⟨r1, rfl, rfl, rfl⟩
  | some t =>
    have hb := he t het
    dsimp only
    rw [if_neg (show ¬ t < env.now - 60 by omega)]
    split
    · exact ⟨_, rfl, rfl, rfl⟩
    · exact ⟨_, rfl, rfl, rfl⟩

/-- Without a requested `node_cnt` the resize step is the identity. -/
lemma updNodeCnt_none (env : Env) (req : Req) (pre post : List Resv) (r4 : Resv)
    (onl : Option String) (onb : Option (List Bool)) (hcnt : req.node_cnt = none) :
    updNodeCnt env req pre post r4 onl onb = .ok (r4, onl, onb) := by
  unfold updNodeCnt
  rw [hcnt]

/-- On overlap failure with a saved node list, the window and the node
fields are restored to the saved values. -/
lemma updOverlapCheck_restore_saved (env : Env) (pre post : List Resv) (oldS oldE : Int)
    (r6 : Resv) (oldNL : Option String) (oldNB : Option (List Bool))
    (hnn : oldNL ≠ none)
    (h1 : (updOverlapCheck env pre post oldS oldE r6 oldNL oldNB).1 = Status.invalid_time) :
    tnFields (updOverlapCheck env pre post oldS oldE r6 oldNL oldNB).2 =
      (oldS, oldE, oldNL, oldNB) := by
  unfold updOverlapCheck at h1 ⊢
  split at h1
  · rename_i hov
    rw [if_pos hov]
    dsimp only
    rw [if_pos hnn]
    simp [tnFields]
  · exact absurd h1 (by simp)

/-- On overlap failure without a saved node list, the window is restored
and the node fields are untouched. -/
lemma updOverlapCheck_restore_nosave (env : Env) (pre post : List Resv) (oldS oldE : Int)
    (r6 : Resv) (oldNB : Option (List Bool))
    (h1 : (updOverlapCheck env pre post oldS oldE r6 none oldNB).1 = Status.invalid_time) :
    tnFields (updOverlapCheck env pre post oldS oldE r6 none oldNB).2 =
      (oldS, oldE, r6.node_list, r6.node_bitmap) := by
  unfold updOverlapCheck at h1 ⊢
  split at h1
  · rename_i hov
    rw [if_pos hov]
    simp [tnFields]
  · exact absurd h1 (by simp)

/-- The time/node block, when its time checks pass, its node list parses,
and no resize is requested, restores the four guarded fields whenever it
returns the overlap failure. -/
lemma updPhase2_overlap_restore (env : Env) (req : Req) (pre post : List Resv) (r0 : Resv)
    (hcnt : req.node_cnt = none)
    (hs : ∀ s, req.start_time = some s → env.now - 60 ≤ s)
    (he : ∀ t, req.end_time = some t → env.now - 60 ≤ t)
    (hnl : ∀ nl, req.node_list = some nl →
      (∃ b, nodeListBitmap env nl = some b) ∧ r0.node_list ≠ none)
    (hres : (updPhase2 env req pre post r0).1 = Status.invalid_time) :
    tnFields (updPhase2 env req pre post r0).2 = tnFields r0 := by
  obtain ⟨r1, h1, h1l, h1b⟩ := updStart_ok env req r0 hs
  obtain ⟨r3, h3, h3l, h3b⟩ := updEnd_ok env req r1 he
  unfold updPhase2 at hres ⊢
  rw [h1] at hres ⊢
  dsimp only at hres ⊢
  rw [h3] at hres ⊢
  dsimp only at hres ⊢
  cases hnlc : req.node_list with
  | none =>
    have h4 : updNodeList env req r0.start_time r3 = .ok (r3, none, none) := by
      unfold updNodeList
      rw [hnlc]
    rw [h4] at hres ⊢
    dsimp only at hres ⊢
    rw [updNodeCnt_none env req pre post r3 none none hcnt] at hres ⊢
    dsimp only at hres ⊢
    rw [updOverlapCheck_restore_nosave env pre post r0.start_time r0.end_time r3 none hres]
    rw [h3l, h1l, h3b, h1b]
    rfl
  | some nl =>
    obtain ⟨⟨b, hb⟩, hnn⟩ := hnl nl hnlc
    have h4 : updNodeList env req r0.start_time r3 =
        .ok ({ r3 with node_list := some nl, node_bitmap := some b },
          r3.node_list, r3.node_bitmap) := by
      unfold updNodeList
      rw [hnlc]
      dsimp only
      rw [hb]
    rw [h4] at hres ⊢
    dsimp only at hres ⊢
    rw [updNodeCnt_none env req pre post _ _ _ hcnt] at hres ⊢
    dsimp only at hres ⊢
    have hnn3 : r3.node_list ≠ none := by
      rw [h3l, h1l]
      exact hnn
    rw [updOverlapCheck_restore_saved env pre post r0.start_time r0.end_time _
      r3.node_list r3.node_bitmap hnn3 hres]
    rw [h3l, h1l, h3b, h1b]
    rfl

/-- Claim C1, amended: `update_resv` is not transactional — an error return
can leave earlier-applied field changes (flags, partition, accounts,
features, users) in place, as the counterexample shows.  What does hold is
the shadow-and-swap over the window and node set: whenever an update whose
time bounds pass, whose node list (if any) parses against a record that has
one, and which requests no resize fails with the overlap status
`ESLURM_INVALID_TIME_VALUE`, the record's `start_time`, `end_time`,
`node_list` and `node_bitmap` all equal their pre-call values. -/
theorem update_resv_overlap_restores (env : Env) (req : Req) (st : State)
    (nm : String) (i : Nat) (r0 : Resv) (st2 : State)
    (hnm : req.name = some nm)
    (hidx : st.resv_list.findIdx? (fun r => r.name == nm) = some i)
    (hget : st.resv_list[i]? = some r0)
    (hcnt : req.node_cnt = none)
    (hs : ∀ s, req.start_time = some s → env.now - 60 ≤ s)
    (he : ∀ t, req.end_time = some t → env.now - 60 ≤ t)
    (hnl : ∀ nl, req.node_list = some nl →
      (∃ b, nodeListBitmap env nl = some b) ∧ r0.node_list ≠ none)
    (hupd : update_resv env req st = (Status.invalid_time, st2)) :
    st2.resv_list[i]?.map tnFields = some (tnFields r0) := by
  have hlen : i < st.resv_list.length := by
    have := List.getElem?_eq_some.mp hget
    exact this.1
  unfold update_resv at hupd
  rw [hnm] at hupd
  dsimp only at hupd
  rw [hidx] at hupd
  dsimp only at hupd
  rw [hget] at hupd
  dsimp only at hupd
  rcases hph : updPhase1 env req r0 with ⟨s1, r1⟩
  rw [hph] at hupd
  dsimp only at hupd
  have htn1 : tnFields r1 = tnFields r0 := by
    have := updPhase1_tn env req r0
    rw [hph] at this
    exact this
  by_cases hs1 : s1 = Status.success
  · subst hs1
    rw [if_neg (by simp)] at hupd
    rcases hph2 : updPhase2 env req (st.resv_list.take i) (st.resv_list.drop (i + 1)) r1 with ⟨s2, r2⟩
    rw [hph2] at hupd
    dsimp only at hupd
    injection hupd with ha hb
    have hnl1 : ∀ nl, req.node_list = some nl →
        (∃ b, nodeListBitmap env nl = some b) ∧ r1.node_list ≠ none := by
      intro nl h
      refine ⟨(hnl nl h).1, ?_⟩
      have h3 : r1.node_list = r0.node_list := by
        have := congrArg (fun p => p.2.2.1) htn1
        simpa [tnFields] using this
      rw [h3]
      exact (hnl nl h).2
    have hres : (updPhase2 env req (st.resv_list.take i) (st.resv_list.drop (i + 1)) r1).1 =
        Status.invalid_time := by
      rw [hph2]
      dsimp only
      exact ha
    have hrest := updPhase2_overlap_restore env req (st.resv_list.take i)
      (st.resv_list.drop (i + 1)) r1 hcnt hs he hnl1 hres
    rw [hph2] at hrest
    have hfin : tnFields r2 = tnFields r0 := hrest.trans htn1
    rw [← hb]
    dsimp only
    rw [List.getElem?_set_self (by simpa using hlen)]
    simp [hfin]
  · rw [if_pos hs1] at hupd
    injection hupd with ha hb
    have := updPhase1_status env req r0
    rw [hph] at this
    dsimp only at this
    rcases this with h | h | h | h
    · exact absurd h hs1
    · rw [h] at ha
      exact absurd ha (by simp)
    · rw [h] at ha
      exact absurd ha (by simp)
    · rw [h] at ha
      exact absurd ha (by simp)

/-- A second reservation "S" for alice on node 0 over [1000, 2000). -/
def resvS : Resv :=
  { resvR with name := "S", resv_id := 2, start_time := 1000, end_time := 2000,
               start_time_prev := 1000 }

/-- A registry holding "R" and "S". -/
def stTwo : State :=
  { resv_list := [resvR, resvS], top_suffix := 0, last_resv_update := 0, resv_over_run := 0 }

/-- An update moving "R" onto the window of "S" (same node), which the
overlap check rejects. -/
def reqMoveR : Req :=
  { reqNil with name := some "R", start_time := some 1000, end_time := some 2000 }

/-- Claim C1, witness for the amended theorem: after the rejected move of
"R" onto the window of "S", record 0 still carries its pre-call window
[5000, 6000) and node set. -/
theorem update_resv_overlap_restores_witness :
    ((update_resv envFix reqMoveR stTwo).2.resv_list[0]?.map tnFields) =
      some (tnFields resvR) :=
  update_resv_overlap_restores envFix reqMoveR stTwo "R" 0 resvR
    (update_resv envFix reqMoveR stTwo).2 rfl (by decide) rfl rfl
    (fun s h => by
      have h2 : (1000 : Int) = s := by simpa [reqMoveR, reqNil] using h
      rw [← h2]
      decide)
    (fun t h => by
      have h2 : (2000 : Int) = t := by simpa [reqMoveR, reqNil] using h
      rw [← h2]
      decide)
    (fun nl h => by
      exact absurd h (by simp [reqMoveR, reqNil]))
    rfl

lemma length_bit_and (a b : List Bool) : (bit_and a b).length = min a.length b.length := by
  simp [bit_and]

lemma length_bit_or (a b : List Bool) : (bit_or a b).length = min a.length b.length := by
  simp [bit_or]

lemma length_bit_not (a : List Bool) : (bit_not a).length = a.length := by
  simp [bit_not]

lemma length_bit_pick_cnt : ∀ (n : Nat) (b : List Bool),
    (bit_pick_cnt n b).length = b.length := by
  intro n b
  induction b generalizing n with
  | nil => rfl
  | cons x xs ih =>
    unfold bit_pick_cnt
    split
    · split <;> simp [ih]
    · simp [ih]

lemma bit_test_true_lt (a : List Bool) (i : Nat) (h : bit_test a i = true) :
    i < a.length := by
  by_contra hc
  rw [bit_test, List.getD_eq_default] at h
  · exact absurd h (by simp)
  · omega

lemma bit_test_and (a b : List Bool) (i : Nat) :
    bit_test (bit_and a b) i = (bit_test a i && bit_test b i) := by
  induction a generalizing b i with
  | nil => simp [bit_and, bit_test]
  | cons x xs ih =>
    cases b with
    | nil => simp [bit_and, bit_test]
    | cons y ys =>
      cases i with
      | zero => simp [bit_and, bit_test]
      | succ k =>
        have := ih ys k
        simpa [bit_and, bit_test] using this

lemma bit_test_or (a b : List Bool) (i : Nat) (hlen : a.length = b.length) :
    bit_test (bit_or a b) i = (bit_test a i || bit_test b i) := by
  induction a generalizing b i with
  | nil =>
    cases b with
    | nil => simp [bit_or, bit_test]
    | cons y ys => exact absurd hlen (by simp)
  | cons x xs ih =>
    cases b with
    | nil => exact absurd hlen (by simp)
    | cons y ys =>
      cases i with
      | zero => simp [bit_or, bit_test]
      | succ k =>
        have := ih ys k (by simpa using hlen)
        simpa [bit_or, bit_test] using this

lemma bit_test_not (a : List Bool) (i : Nat) (h : i < a.length) :
    bit_test (bit_not a) i = !(bit_test a i) := by
  induction a generalizing i with
  | nil => exact absurd h (by simp)
  | cons x xs ih =>
    cases i with
    | zero => simp [bit_not, bit_test]
    | succ k =>
      have := ih k (by simpa using h)
      simpa [bit_not, bit_test] using this

lemma bit_set_count_append (xs ys : List Bool) :
    bit_set_count (xs ++ ys) = bit_set_count xs + bit_set_count ys := by
  induction xs with
  | nil => simp [bit_set_count]
  | cons x t ih => simp [bit_set_count, ih]; omega

lemma bit_set_count_take_mono (b : List Bool) (i j : Nat) (h : i ≤ j) :
    bit_set_count (b.take i) ≤ bit_set_count (b.take j) := by
  have h2 : b.take j = b.take i ++ (b.drop i).take (j - i) := by
    rw [← List.take_add]
    congr 1
    omega
  rw [h2, bit_set_count_append]
  omega

lemma bit_pick_cnt_test : ∀ (b : List Bool) (n i : Nat),
    bit_test (bit_pick_cnt n b) i =
      (bit_test b i && decide (bit_set_count (b.take i) < n)) := by
  intro b
  induction b with
  | nil => intro n i; simp [bit_pick_cnt, bit_test]
  | cons x xs ih =>
    intro n i
    cases i with
    | zero =>
      cases x with
      | false => simp [bit_pick_cnt, bit_test]
      | true =>
        cases n with
        | zero => simp [bit_pick_cnt, bit_test, bit_set_count]
        | succ k => simp [bit_pick_cnt, bit_test, bit_set_count]
    | succ m =>
      cases x with
      | false =>
        simp only [bit_pick_cnt, if_neg (by simp : ¬ (false = true))]
        have := ih n m
        simpa [bit_test, bit_set_count] using this
      | true =>
        cases n with
        | zero =>
          have := ih 0 m
          simp only [bit_pick_cnt, if_pos rfl, if_pos rfl]
          simp [bit_test, bit_set_count] at this ⊢
          rw [this]
        | succ k =>
          have := ih k m
          simp only [bit_pick_cnt, if_pos rfl, if_neg (by omega : ¬ (k + 1 = 0))]
          simp [bit_test, bit_set_count] at this ⊢
          rw [this]
          have h3 : (1 + bit_set_count (List.take m xs) < k + 1) ↔
              (bit_set_count (List.take m xs) < k) := by omega
          simp [h3]

lemma bit_pick_cnt_count : ∀ (b : List Bool) (n : Nat),
    bit_set_count (bit_pick_cnt n b) = min n (bit_set_count b) := by
  intro b
  induction b with
  | nil => intro n; simp [bit_pick_cnt, bit_set_count]
  | cons x xs ih =>
    intro n
    cases x with
    | false => simpa [bit_pick_cnt, bit_set_count] using ih n
    | true =>
      cases n with
      | zero =>
        have := ih 0
        simp [bit_pick_cnt, bit_set_count, this]
      | succ k =>
        have := ih k
        simp [bit_pick_cnt, bit_set_count, this]
        omega

lemma bit_set_count_or_disjoint : ∀ (a b : List Bool), a.length = b.length →
    (∀ i, ¬(bit_test a i = true ∧ bit_test b i = true)) →
    bit_set_count (bit_or a b) = bit_set_count a + bit_set_count b := by
  intro a
  induction a with
  | nil =>
    intro b hlen _
    cases b with
    | nil => rfl
    | cons y ys => exact absurd hlen (by simp)
  | cons x xs ih =>
    intro b hlen hdis
    cases b with
    | nil => exact absurd hlen (by simp)
    | cons y ys =>
      have h0 := hdis 0
      have hrec := ih ys (by simpa using hlen) (fun i => by
        have := hdis (i + 1)
        simpa [bit_test] using this)
      cases x with
      | true =>
        cases y with
        | true => exact absurd ⟨by simp [bit_test], by simp [bit_test]⟩ h0
        | false =>
          simp [bit_or, bit_set_count] at hrec ⊢
          omega
      | false =>
        simp [bit_or, bit_set_count] at hrec ⊢
        cases y <;> simp [bit_set_count] <;> omega

lemma bit_set_count_split : ∀ (a c : List Bool), a.length = c.length →
    bit_set_count a = bit_set_count (bit_and a c) + bit_set_count (bit_and a (bit_not c)) := by
  intro a
  induction a with
  | nil => intro c _; simp [bit_and, bit_not, bit_set_count]
  | cons x xs ih =>
    intro c hlen
    cases c with
    | nil => exact absurd hlen (by simp)
    | cons y ys =>
      have hrec := ih ys (by simpa using hlen)
      cases x <;> cases y <;>
        simp [bit_and, bit_not, bit_set_count, hrec] <;> omega

/-- Modelled from the spec: the selection predicates of the claim.  A chosen
bitmap is a subset of a pool when every chosen index is in the pool. -/
def bSubset (x y : List Bool) : Bool :=
  (List.range x.length).all (fun i => !(bit_test x i) || bit_test y i)

/-- Modelled from the spec: "lowest-index-first" selection — the chosen set
is downward closed inside the pool: any pool index below a chosen index is
chosen too. -/
def bLowestFirst (chosen pool : List Bool) : Bool :=
  (List.range pool.length).all (fun i =>
    (List.range pool.length).all (fun j =>
      !(decide (j < i) && bit_test chosen i && bit_test pool j) || bit_test chosen j))

lemma bSubset_iff (x y : List Bool) :
    bSubset x y = true ↔ ∀ i, bit_test x i = true → bit_test y i = true := by
  unfold bSubset
  rw [List.all_eq_true]
  constructor
  · intro h i hx
    have hi : i < x.length := bit_test_true_lt x i hx
    have := h i (List.mem_range.mpr hi)
    simpa [hx] using this
  · intro h i _
    by_cases hx : bit_test x i = true
    · simp [hx, h i hx]
    · simp [Bool.not_eq_true] at hx
      simp [hx]

lemma bLowestFirst_iff (chosen pool : List Bool) (hlen : chosen.length ≤ pool.length) :
    bLowestFirst chosen pool = true ↔
      ∀ i j, j < i → bit_test chosen i = true → bit_test pool j = true →
        bit_test chosen j = true := by
  unfold bLowestFirst
  rw [List.all_eq_true]
  constructor
  · intro h i j hji hc hp
    have hi : i < pool.length := lt_of_lt_of_le (bit_test_true_lt chosen i hc) hlen
    have hj : j < pool.length := bit_test_true_lt pool j hp
    have h2 := h i (List.mem_range.mpr hi)
    rw [List.all_eq_true] at h2
    have h3 := h2 j (List.mem_range.mpr hj)
    simpa [hji, hc, hp] using h3
  · intro h i _
    rw [List.all_eq_true]
    intro j _
    by_cases hji : j < i
    · by_cases hc : bit_test chosen i = true
      · by_cases hp : bit_test pool j = true
        · simp [hji, hc, hp, h i j hji hc hp]
        · simp [Bool.not_eq_true] at hp
          simp [hp]
      · simp [Bool.not_eq_true] at hc
        simp [hc]
    · simp [hji]

lemma bit_pick_cnt_subset (n : Nat) (b : List Bool) (i : Nat)
    (h : bit_test (bit_pick_cnt n b) i = true) : bit_test b i = true := by
  rw [bit_pick_cnt_test] at h
  exact (Bool.and_eq_true_iff.mp h).1

lemma bit_pick_cnt_lowest (n : Nat) (b : List Bool) (i j : Nat) (hji : j < i)
    (hi : bit_test (bit_pick_cnt n b) i = true) (hj : bit_test b j = true) :
    bit_test (bit_pick_cnt n b) j = true := by
  rw [bit_pick_cnt_test] at hi ⊢
  obtain ⟨h1, h2⟩ := Bool.and_eq_true_iff.mp hi
  have h3 : bit_set_count (b.take j) ≤ bit_set_count (b.take i) :=
    bit_set_count_take_mono b j i (by omega)
  simp only [decide_eq_true_eq] at h2
  simp [hj, decide_eq_true_eq]
  omega

lemma length_featureFilter (feats : List (List String)) (f : String) :
    ∀ (b : List Bool) (i : Nat), (featureFilter feats f b i).length = b.length := by
  intro b
  induction b with
  | nil => intro i; rfl
  | cons x xs ih => intro i; simp [featureFilter, ih]

lemma length_subtractResvNodes (lst : List Resv) (startT endT : Int) :
    ∀ (bm : List Bool),
    (∀ r ∈ lst, ∀ x, r.node_bitmap = some x → bm.length ≤ x.length) →
    (subtractResvNodes lst startT endT bm).length = bm.length := by
  induction lst with
  | nil => intro bm _; rfl
  | cons r rest ih =>
    intro bm hlen
    have hstep : subtractResvNodes (r :: rest) startT endT bm =
        subtractResvNodes rest startT endT
          (match r.node_bitmap with
           | none => bm
           | some b =>
             if endT ≤ r.start_time ∨ r.end_time ≤ startT then bm
             else bit_and bm (bit_not b)) := rfl
    rw [hstep]
    cases hb : r.node_bitmap with
    | none =>
      dsimp only
      exact ih bm (fun r2 hr2 y hy => hlen r2 (by simp [hr2]) y hy)
    | some x =>
      dsimp only
      split
      · exact ih bm (fun r2 hr2 y hy => hlen r2 (by simp [hr2]) y hy)
      · have hx := hlen r (by simp) x hb
        have hnew : (bit_and bm (bit_not x)).length = bm.length := by
          rw [length_bit_and, length_bit_not]
          omega
        have h2 := ih (bit_and bm (bit_not x)) (fun r2 hr2 y hy => by
          rw [hnew]
          exact hlen r2 (by simp [hr2]) y hy)
        exact h2.trans hnew

lemma length_availNodes (env : Env) (lst : List Resv) (startT endT : Int)
    (features : Option String) (partBm : List Bool)
    (hres : ∀ r ∈ lst, ∀ x, r.node_bitmap = some x → partBm.length ≤ x.length)
    (havail : partBm.length ≤ env.availBitmap.length) :
    (availNodes env lst startT endT features partBm).length = partBm.length := by
  unfold availNodes
  have h1 := length_subtractResvNodes lst startT endT partBm hres
  cases features with
  | none =>
    dsimp only
    rw [length_bit_and, h1]
    omega
  | some f =>
    dsimp only
    rw [length_bit_and, length_featureFilter, h1]
    omega

/-- Bitmaps of equal length agreeing on every `bit_test` are equal. -/
lemma bit_ext : ∀ (a b : List Bool), a.length = b.length →
    (∀ i, bit_test a i = bit_test b i) → a = b := by
  intro a
  induction a with
  | nil =>
    intro b hlen _
    cases b with
    | nil => rfl
    | cons y ys => exact absurd hlen (by simp)
  | cons x xs ih =>
    intro b hlen hpt
    cases b with
    | nil => exact absurd hlen (by simp)
    | cons y ys =>
      have h0 := hpt 0
      simp [bit_test] at h0
      have hrest := ih ys (by simpa using hlen) (fun i => by
        have := hpt (i + 1)
        simpa [bit_test] using this)
      rw [h0, hrest]

lemma bit_test_ge (a : List Bool) (i : Nat) (h : a.length ≤ i) :
    bit_test a i = false := by
  rw [bit_test, List.getD_eq_default]
  exact h

/-- Decidable well-formedness bound: every registered bitmap is at least as
long as the partition bitmap being filtered. -/
def resvLenOK (L : Nat) (lst : List Resv) : Bool :=
  lst.all (fun r =>
    match r.node_bitmap with
    | none => true
    | some x => decide (L ≤ x.length))

/-- C6: over a resolved partition whose bitmap is no longer than the node
inventory bitmaps, `_select_nodes` fails with TOO_MANY_REQUESTED_NODES exactly
when fewer than `n` nodes survive the three filters (window-intersecting
reservations subtracted, feature filter, down nodes removed); on success the
chosen bitmap has exactly `n` nodes, all inside the filtered pool, and is the
`n` lowest-indexed idle survivors when at least `n` survivors are idle, else
every idle survivor plus the lowest-indexed non-idle survivors up to `n`. -/
theorem select_nodes_spec (env : Env) (lst : List Resv) (startT endT : Int)
    (features : Option String) (n : Nat) (part : Option PartRec) (P : PartRec)
    (bm : List Bool) (Q : PartRec)
    (hP : partOf env part = some P)
    (hres : resvLenOK P.node_bitmap.length lst = true)
    (hup : P.node_bitmap.length = env.availBitmap.length)
    (hidle : P.node_bitmap.length = env.idleBitmap.length) :
    let avail := availNodes env lst startT endT features P.node_bitmap
    let idlePool := bit_and avail env.idleBitmap
    let busyPool := bit_and avail (bit_not env.idleBitmap)
    (select_nodes env lst startT endT features n part =
        .error Status.too_many_nodes ↔ bit_set_count avail < n) ∧
    (select_nodes env lst startT endT features n part = .ok (bm, Q) →
      Q = P ∧
      bit_set_count bm = n ∧
      bSubset bm avail = true ∧
      (n ≤ bit_set_count idlePool →
        bSubset bm idlePool = true ∧ bLowestFirst bm idlePool = true) ∧
      (bit_set_count idlePool < n →
        bSubset idlePool bm = true ∧
        bit_and bm (bit_not env.idleBitmap) =
          bit_pick_cnt (n - bit_set_count idlePool) busyPool ∧
        bLowestFirst (bit_and bm (bit_not env.idleBitmap)) busyPool = true)) := by
  intro avail idlePool busyPool
  have hres' : ∀ r ∈ lst, ∀ x, r.node_bitmap = some x →
      P.node_bitmap.length ≤ x.length := by
    intro r hr x hx
    have h1 := List.all_eq_true.mp hres r hr
    rw [hx] at h1
    simpa using h1
  have hlenA : avail.length = P.node_bitmap.length :=
    length_availNodes env lst startT endT features P.node_bitmap hres' (le_of_eq hup)
  have hlenI : env.idleBitmap.length = P.node_bitmap.length := hidle.symm
  have hlenIP : idlePool.length = P.node_bitmap.length := by
    show (bit_and avail env.idleBitmap).length = _
    rw [length_bit_and, hlenA, hlenI]
    omega
  have hlenBP : busyPool.length = P.node_bitmap.length := by
    show (bit_and avail (bit_not env.idleBitmap)).length = _
    rw [length_bit_and, length_bit_not, hlenA, hlenI]
    omega
  have hsplit := bit_set_count_split avail env.idleBitmap (by rw [hlenA, hlenI])
  have hov : bit_overlap avail env.idleBitmap = bit_set_count idlePool := rfl
  have hsel : select_nodes env lst startT endT features n part =
      (if bit_set_count avail < n then Except.error Status.too_many_nodes
       else if n ≤ bit_overlap avail env.idleBitmap then
         Except.ok (bit_pick_cnt n idlePool, P)
       else
         Except.ok
           (bit_or idlePool
             (bit_pick_cnt (n - bit_overlap avail env.idleBitmap) busyPool), P)) := by
    unfold select_nodes
    rw [hP]
  constructor
  · rw [hsel]
    by_cases hcnt : bit_set_count avail < n
    · simp [hcnt]
    · rw [if_neg hcnt]
      by_cases hen : n ≤ bit_overlap avail env.idleBitmap
      · rw [if_pos hen]
        simp [hcnt]
      · rw [if_neg hen]
        simp [hcnt]
  · intro hok
    rw [hsel] at hok
    by_cases hcnt : bit_set_count avail < n
    · rw [if_pos hcnt] at hok
      exact absurd hok (by simp)
    · rw [if_neg hcnt] at hok
      by_cases hen : n ≤ bit_overlap avail env.idleBitmap
      · rw [if_pos hen] at hok
        rw [Except.ok.injEq, Prod.mk.injEq] at hok
        obtain ⟨hbm, hQ⟩ := hok
        rw [hov] at hen
        subst hbm
        refine ⟨hQ.symm, ?_, ?_, ?_, ?_⟩
        · rw [bit_pick_cnt_count]
          omega
        · rw [bSubset_iff]
          intro i hi
          have h2 := bit_pick_cnt_subset _ _ _ hi
          rw [bit_test_and] at h2
          exact (Bool.and_eq_true_iff.mp h2).1
        · intro _
          constructor
          · rw [bSubset_iff]
            intro i hi
            exact bit_pick_cnt_subset _ _ _ hi
          · rw [bLowestFirst_iff _ _ (by rw [length_bit_pick_cnt])]
            intro i j hji hc hp
            exact bit_pick_cnt_lowest _ _ _ _ hji hc hp
        · intro hlt
          exact absurd hen (by omega)
      · rw [if_neg hen] at hok
        rw [Except.ok.injEq, Prod.mk.injEq] at hok
        obtain ⟨hbm, hQ⟩ := hok
        rw [hov] at hen hbm
        have e1 : bit_set_count (bit_and avail env.idleBitmap) = bit_set_count idlePool :=
          rfl
        have e2 : bit_set_count (bit_and avail (bit_not env.idleBitmap)) =
            bit_set_count busyPool := rfl
        rw [e1, e2] at hsplit
        have hlt : bit_set_count idlePool < n := by omega
        have hk : n - bit_set_count idlePool ≤ bit_set_count busyPool := by omega
        have hlenPick :
            (bit_pick_cnt (n - bit_set_count idlePool) busyPool).length =
              P.node_bitmap.length := by
          rw [length_bit_pick_cnt, hlenBP]
        have hdisj : ∀ i,
            ¬(bit_test idlePool i = true ∧
              bit_test (bit_pick_cnt (n - bit_set_count idlePool) busyPool) i = true) := by
          intro i ⟨h1, h2⟩
          have h3 := bit_pick_cnt_subset _ _ _ h2
          have hiLt : i < env.idleBitmap.length := by
            have := bit_test_true_lt _ _ h3
            rw [hlenBP] at this
            omega
          rw [show busyPool = bit_and avail (bit_not env.idleBitmap) from rfl,
            bit_test_and, bit_test_not _ _ hiLt] at h3
          rw [show idlePool = bit_and avail env.idleBitmap from rfl,
            bit_test_and] at h1
          obtain ⟨_, hI⟩ := Bool.and_eq_true_iff.mp h1
          obtain ⟨_, hN⟩ := Bool.and_eq_true_iff.mp h3
          rw [hI] at hN
          exact absurd hN (by simp)
        have hcount :
            bit_set_count (bit_or idlePool
              (bit_pick_cnt (n - bit_set_count idlePool) busyPool)) = n := by
          rw [bit_set_count_or_disjoint _ _ (by rw [hlenIP, hlenPick]) hdisj,
            bit_pick_cnt_count]
          omega
        have htestbm : ∀ i, bit_test bm i =
            (bit_test idlePool i ||
             bit_test (bit_pick_cnt (n - bit_set_count idlePool) busyPool) i) := by
          intro i
          rw [← hbm, bit_test_or _ _ _ (by rw [hlenIP, hlenPick])]
        subst hbm
        refine ⟨hQ.symm, hcount, ?_, ?_, ?_⟩
        · rw [bSubset_iff]
          intro i hi
          rw [htestbm] at hi
          rcases Bool.or_eq_true_iff.mp hi with h1 | h1
          · rw [show idlePool = bit_and avail env.idleBitmap from rfl,
              bit_test_and] at h1
            exact (Bool.and_eq_true_iff.mp h1).1
          · have h3 := bit_pick_cnt_subset _ _ _ h1
            rw [show busyPool = bit_and avail (bit_not env.idleBitmap) from rfl,
              bit_test_and] at h3
            exact (Bool.and_eq_true_iff.mp h3).1
        · intro h2
          exact absurd h2 (by omega)
        · intro _
          have heq : bit_and
              (bit_or idlePool (bit_pick_cnt (n - bit_set_count idlePool) busyPool))
              (bit_not env.idleBitmap) =
              bit_pick_cnt (n - bit_set_count idlePool) busyPool := by
            apply bit_ext
            · rw [length_bit_and, length_bit_or, length_bit_not, hlenIP, hlenPick, hlenI]
              omega
            · intro i
              by_cases hiLt : i < env.idleBitmap.length
              · rw [bit_test_and, bit_test_not _ _ hiLt,
                  bit_test_or _ _ _ (by rw [hlenIP, hlenPick])]
                by_cases hI : bit_test env.idleBitmap i = true
                · have hpick :
                      bit_test (bit_pick_cnt (n - bit_set_count idlePool) busyPool) i
                        = false := by
                    by_contra hcn
                    rw [Bool.not_eq_false] at hcn
                    exact hdisj i ⟨by
                      have h3 := bit_pick_cnt_subset _ _ _ hcn
                      rw [show busyPool = bit_and avail (bit_not env.idleBitmap) from rfl,
                        bit_test_and, bit_test_not _ _ hiLt, hI] at h3
                      simp at h3, hcn⟩
                  simp [hI, hpick]
                · rw [Bool.not_eq_true] at hI
                  have hip : bit_test idlePool i = false := by
                    rw [show idlePool = bit_and avail env.idleBitmap from rfl,
                      bit_test_and, hI]
                    simp
                  simp [hI, hip]
              · have h1 : bit_test (bit_and
                    (bit_or idlePool (bit_pick_cnt (n - bit_set_count idlePool) busyPool))
                    (bit_not env.idleBitmap)) i = false := by
                  apply bit_test_ge
                  rw [length_bit_and, length_bit_or, length_bit_not, hlenIP, hlenPick, hlenI]
                  omega
                have h2 : bit_test (bit_pick_cnt (n - bit_set_count idlePool) busyPool) i
                    = false := by
                  apply bit_test_ge
                  rw [hlenPick]
                  omega
                rw [h1, h2]
          refine ⟨?_, heq, ?_⟩
          · rw [bSubset_iff]
            intro i hi
            rw [htestbm, hi]
            simp
          · rw [heq, bLowestFirst_iff _ _ (by rw [length_bit_pick_cnt])]
            intro i j hji hc hp
            exact bit_pick_cnt_lowest _ _ _ _ hji hc hp

/-- Witness for C6: a one-node request over the fixture with reservation "R"
blocking node 0 in the window; node 1 is chosen. -/
theorem select_nodes_spec_witness :
    (select_nodes envFix [resvR] 5500 5600 none 1 (some ⟨"p", [true, true]⟩) =
        .error Status.too_many_nodes ↔ bit_set_count [false, true] < 1) ∧
    (select_nodes envFix [resvR] 5500 5600 none 1 (some ⟨"p", [true, true]⟩) =
        .ok ([false, true], (⟨"p", [true, true]⟩ : PartRec)) →
      (⟨"p", [true, true]⟩ : PartRec) = ⟨"p", [true, true]⟩ ∧
      bit_set_count [false, true] = 1 ∧
      bSubset [false, true] [false, true] = true ∧
      (1 ≤ bit_set_count [false, true] →
        bSubset [false, true] [false, true] = true ∧
        bLowestFirst [false, true] [false, true] = true) ∧
      (bit_set_count [false, true] < 1 →
        bSubset [false, true] [false, true] = true ∧
        bit_and [false, true] (bit_not [true, true]) =
          bit_pick_cnt (1 - bit_set_count [false, true]) [false, false] ∧
        bLowestFirst (bit_and [false, true] (bit_not [true, true])) [false, false] = true)) :=
  select_nodes_spec envFix [resvR] 5500 5600 none 1 (some ⟨"p", [true, true]⟩)
    ⟨"p", [true, true]⟩ [false, true] ⟨"p", [true, true]⟩ rfl (by decide) rfl rfl

lemma bit_overlap_comm (a b : List Bool) : bit_overlap a b = bit_overlap b a := by
  unfold bit_overlap bit_and
  rw [List.zipWith_comm_of_comm]
  intro x y
  exact Bool.and_comm x y

lemma overlap_expr_symm (sA eA sB eB : Int) (bmA bmB : List Bool) :
    ((if eA ≤ sB then false else if eB ≤ sA then false else (bit_overlap bmA bmB != 0)) : Bool) =
    (if eB ≤ sA then false else if eA ≤ sB then false else (bit_overlap bmB bmA != 0)) := by
  by_cases h1 : eA ≤ sB <;> by_cases h2 : eB ≤ sA <;>
    simp [h1, h2, bit_overlap_comm]

lemma bit_set_count_pos_iff : ∀ (a : List Bool),
    bit_set_count a ≠ 0 ↔ ∃ i, bit_test a i = true := by
  intro a
  induction a with
  | nil =>
    constructor
    · intro h; exact absurd rfl h
    · intro ⟨i, hi⟩; exact absurd hi (by simp [bit_test])
  | cons x xs ih =>
    cases x with
    | true =>
      constructor
      · intro _; exact ⟨0, rfl⟩
      · intro _; simp [bit_set_count]
    | false =>
      constructor
      · intro h
        obtain ⟨i, hi⟩ := ih.mp (by simpa [bit_set_count] using h)
        exact ⟨i + 1, by simpa [bit_test] using hi⟩
      · intro ⟨i, hi⟩
        cases i with
        | zero => exact absurd hi (by simp [bit_test])
        | succ k =>
          have : bit_set_count xs ≠ 0 := ih.mpr ⟨k, by simpa [bit_test] using hi⟩
          simpa [bit_set_count] using this

lemma overlapsWith_true_iff (r : Resv) (s e : Int) (bm : List Bool) :
    overlapsWith r s e bm = true ↔
      (s < r.end_time ∧ r.start_time < e ∧
       ∃ rb, r.node_bitmap = some rb ∧ ∃ i, bit_test rb i = true ∧ bit_test bm i = true) := by
  unfold overlapsWith
  by_cases h1 : r.end_time ≤ s
  · simp [h1]
  · rw [if_neg h1]
    by_cases h2 : e ≤ r.start_time
    · simp [h2]
    · rw [if_neg h2]
      cases hb : r.node_bitmap with
      | none => simp [hb]
      | some b =>
        have hiff := bit_set_count_pos_iff (bit_and b bm)
        constructor
        · intro h
          refine ⟨by omega, by omega, b, rfl, ?_⟩
          have h3 : bit_overlap b bm ≠ 0 := by simpa using h
          obtain ⟨i, hi⟩ := hiff.mp h3
          rw [bit_test_and] at hi
          exact ⟨i, Bool.and_eq_true_iff.mp hi⟩
        · intro ⟨_, _, rb, hrb, i, hi1, hi2⟩
          injection hrb with hb2
          subst hb2
          have h3 : bit_overlap b bm ≠ 0 :=
            hiff.mpr ⟨i, by rw [bit_test_and, hi1, hi2]; rfl⟩
          simpa using h3

/-- Sequencing of two `create_resv` calls from the same registry: true when
both return SUCCESS (the second starting from the first's result state). -/
def chainOK (env : Env) (a b : Req) (st : State) : Bool :=
  match create_resv env a st with
  | some (Status.success, st1) =>
    match create_resv env b st1 with
    | some (Status.success, _) => true
    | _ => false
  | _ => false

/-- The pairwise overlap test against a freshly created record, by
definitional unfolding. -/
lemma overlapsWith_createRec (env : Env) (req : Req) (ts : Nat) (startT endT : Int)
    (flagsv : Nat) (pname : Option String) (nlistStr : Option String) (ncnt : Nat)
    (bm : List Bool) (al : List String) (ul : List Nat) (nm : String)
    (s e : Int) (bm2 : List Bool) :
    overlapsWith (createRec env req ts startT endT flagsv pname nlistStr ncnt bm al ul nm)
        s e bm2 =
      (if endT ≤ s then false else if e ≤ startT then false
       else (bit_overlap bm bm2 != 0)) := rfl

/-- Introduction for the explicit-node-list path of the node phase. -/
lemma createNodePhase_nodelist_intro (env : Env) (lst : List Resv) (req : Req)
    (startT endT : Int) (part : Option PartRec) (nl : String) (bm : List Bool)
    (hnl : req.node_list = some nl)
    (hbm : nodeListBitmap env nl = some bm)
    (hov : resv_overlap lst startT endT bm = false) :
    createNodePhase env lst req startT endT part =
      .ok (bm, some nl, bit_set_count bm, req.partition) := by
  unfold createNodePhase
  rw [hnl]
  dsimp only
  rw [hbm]
  dsimp only
  rw [if_neg (by rw [hov]; simp)]

/-- Introduction for a successful named, explicit-node-list `create_resv`:
the record appended is fully determined by the validated values. -/
lemma create_resv_named_ok_intro (env : Env) (req : Req) (st : State) (nm nl : String)
    (startT endT : Int) (flagsv : Nat) (part : Option PartRec)
    (al : List String) (ul : List Nat) (bm : List Bool)
    (hnm : req.name = some nm) (hnl : req.node_list = some nl)
    (hv : createValidate env req = .ok (startT, endT, flagsv, part, al, ul))
    (hbm : nodeListBitmap env nl = some bm)
    (hov : resv_overlap st.resv_list startT endT bm = false)
    (hcoll : st.resv_list.any (fun r => r.name == nm) = false) :
    create_resv env req st = some (Status.success,
      { st with
          resv_list := st.resv_list ++
            [createRec env req ((if st.top_suffix > 4294967040 then 0 else st.top_suffix) + 1)
              startT endT flagsv req.partition (some nl) (bit_set_count bm) bm al ul nm],
          top_suffix := (if st.top_suffix > 4294967040 then 0 else st.top_suffix) + 1,
          last_resv_update := env.now }) := by
  unfold create_resv
  rw [hv]
  dsimp only
  rw [createNodePhase_nodelist_intro env st.resv_list req startT endT part nl bm hnl hbm hov]
  dsimp only
  rw [hnm]
  dsimp only
  rw [if_neg (by rw [hcoll]; simp)]

/-- Inversion of a successful named, explicit-node-list `create_resv`. -/
lemma create_resv_named_ok_inv (env : Env) (req : Req) (st st2 : State) (nm nl : String)
    (hnm : req.name = some nm) (hnl : req.node_list = some nl)
    (h : create_resv env req st = some (Status.success, st2)) :
    ∃ startT endT flagsv part al ul bm,
      createValidate env req = .ok (startT, endT, flagsv, part, al, ul) ∧
      nodeListBitmap env nl = some bm ∧
      resv_overlap st.resv_list startT endT bm = false ∧
      st.resv_list.any (fun r => r.name == nm) = false ∧
      st2 = { st with
        resv_list := st.resv_list ++
          [createRec env req ((if st.top_suffix > 4294967040 then 0 else st.top_suffix) + 1)
            startT endT flagsv req.partition (some nl) (bit_set_count bm) bm al ul nm],
        top_suffix := (if st.top_suffix > 4294967040 then 0 else st.top_suffix) + 1,
        last_resv_update := env.now } := by
  unfold create_resv at h
  split at h
  · rename_i s heqV
    injection h with h2
    injection h2 with ha hb
    exact absurd ha (createValidate_error_ne_success env req s heqV)
  · rename_i startT endT flagsv part al ul heqV
    split at h
    · rename_i s heqN
      injection h with h2
      injection h2 with ha hb
      exact absurd ha
        (createNodePhase_error_ne_success env st.resv_list req startT endT part s heqN)
    · rename_i bm0 nls nc pn heqN
      cases hbm : nodeListBitmap env nl with
      | none =>
        unfold createNodePhase at heqN
        rw [hnl] at heqN
        dsimp only at heqN
        rw [hbm] at heqN
        exact absurd heqN (by simp)
      | some bm =>
        obtain ⟨htup, hov⟩ :=
          createNodePhase_nodelist_inv env st.resv_list req startT endT part nl bm
            (bm0, nls, nc, pn) hnl hbm heqN
        simp only [Prod.mk.injEq] at htup
        obtain ⟨hb1, hb2, hb3, hb4⟩ := htup
        rw [hb1, hb2, hb3, hb4] at h
        dsimp only at h
        rw [hnm] at h
        dsimp only at h
        split at h
        · injection h with h2
          injection h2 with ha hb
          exact absurd ha.symm (by simp)
        · rename_i hcoll
          injection h with h2
          injection h2 with ha hb
          refine ⟨startT, endT, flagsv, part, al, ul, bm, heqV, rfl, hov, ?_, hb.symm⟩
          simpa using hcoll

lemma createRec_name (env : Env) (req : Req) (ts : Nat) (startT endT : Int)
    (flagsv : Nat) (pname : Option String) (nlistStr : Option String) (ncnt : Nat)
    (bm : List Bool) (al : List String) (ul : List Nat) (nm : String) :
    (createRec env req ts startT endT flagsv pname nlistStr ncnt bm al ul nm).name = nm :=
  rfl

lemma beq_false_symm_str (x y : String) (h : (x == y) = false) : (y == x) = false := by
  by_contra hc
  rw [Bool.not_eq_false, beq_iff_eq] at hc
  subst hc
  rw [beq_self_eq_true] at h
  exact absurd h (by simp)

lemma chainOK_true_elim (env : Env) (a b : Req) (st : State)
    (h : chainOK env a b st = true) :
    ∃ st1 st2, create_resv env a st = some (Status.success, st1) ∧
      create_resv env b st1 = some (Status.success, st2) := by
  unfold chainOK at h
  split at h
  · rename_i st1 heq1
    split at h
    · rename_i st2 heq2
      exact ⟨st1, st2, heq1, heq2⟩
    · exact absurd h (by simp)
  · exact absurd h (by simp)

lemma chainOK_eq_true (env : Env) (a b : Req) (st : State) (st1 st2 : State)
    (h1 : create_resv env a st = some (Status.success, st1))
    (h2 : create_resv env b st1 = some (Status.success, st2)) :
    chainOK env a b st = true := by
  unfold chainOK
  rw [h1]
  dsimp only
  rw [h2]

/-- Order symmetry of two-create chains for requests carrying explicit names
and node lists: success of A-then-B transfers to B-then-A, because the only
registry-dependent checks (the `_resv_overlap` test and the duplicate-name
test) decompose over the appended record and the cross tests are symmetric. -/
lemma chainOK_swap (env : Env) (a b : Req) (st : State)
    (nmA nlA nmB nlB : String)
    (hna : a.name = some nmA) (hnla : a.node_list = some nlA)
    (hnb : b.name = some nmB) (hnlb : b.node_list = some nlB)
    (h : chainOK env a b st = true) : chainOK env b a st = true := by
  obtain ⟨st1, st2, heqA, heqB⟩ := chainOK_true_elim env a b st h
  obtain ⟨sA, eA, fA, pA, alA, ulA, bmA, hVA, hbmA, hovA, hcollA, hst1⟩ :=
    create_resv_named_ok_inv env a st st1 nmA nlA hna hnla heqA
  subst hst1
  obtain ⟨sB, eB, fB, pB, alB, ulB, bmB, hVB, hbmB, hovB, hcollB, _⟩ :=
    create_resv_named_ok_inv env b _ st2 nmB nlB hnb hnlb heqB
  dsimp only at hovB hcollB
  unfold resv_overlap at hovB
  rw [List.any_append] at hovB
  simp only [List.any_cons, List.any_nil, Bool.or_false] at hovB
  rw [Bool.or_eq_false_iff] at hovB
  obtain ⟨hovB1, hcrossB⟩ := hovB
  rw [List.any_append] at hcollB
  simp only [List.any_cons, List.any_nil, Bool.or_false, createRec_name] at hcollB
  rw [Bool.or_eq_false_iff] at hcollB
  obtain ⟨hcollB1, hnmAB⟩ := hcollB
  have hnmBA : (nmB == nmA) = false := beq_false_symm_str nmA nmB hnmAB
  have hB' := create_resv_named_ok_intro env b st nmB nlB sB eB fB pB alB ulB bmB
    hnb hnlb hVB hbmB hovB1 hcollB1
  have hx : overlapsWith
      (createRec env b ((if st.top_suffix > 4294967040 then 0 else st.top_suffix) + 1)
        sB eB fB b.partition (some nlB) (bit_set_count bmB) bmB alB ulB nmB)
      sA eA bmA = false := by
    rw [overlapsWith_createRec, ← overlap_expr_symm]
    rw [overlapsWith_createRec] at hcrossB
    exact hcrossB
  have hovA2 : resv_overlap
      (st.resv_list ++
        [createRec env b ((if st.top_suffix > 4294967040 then 0 else st.top_suffix) + 1)
          sB eB fB b.partition (some nlB) (bit_set_count bmB) bmB alB ulB nmB])
      sA eA bmA = false := by
    unfold resv_overlap
    rw [List.any_append]
    simp only [List.any_cons, List.any_nil, Bool.or_false]
    rw [Bool.or_eq_false_iff]
    exact ⟨hovA, hx⟩
  have hcollA2 : (st.resv_list ++
      [createRec env b ((if st.top_suffix > 4294967040 then 0 else st.top_suffix) + 1)
        sB eB fB b.partition (some nlB) (bit_set_count bmB) bmB alB ulB nmB]).any
      (fun r => r.name == nmA) = false := by
    rw [List.any_append]
    simp only [List.any_cons, List.any_nil, Bool.or_false, createRec_name]
    rw [Bool.or_eq_false_iff]
    exact ⟨hcollA, hnmBA⟩
  have hA' := create_resv_named_ok_intro env a
    { st with
        resv_list := st.resv_list ++
          [createRec env b ((if st.top_suffix > 4294967040 then 0 else st.top_suffix) + 1)
            sB eB fB b.partition (some nlB) (bit_set_count bmB) bmB alB ulB nmB],
        top_suffix := (if st.top_suffix > 4294967040 then 0 else st.top_suffix) + 1,
        last_resv_update := env.now }
    nmA nlA sA eA fA pA alA ulA bmA hna hnla hVA hbmA hovA2 hcollA2
  exact chainOK_eq_true env b a st _ _ hB' hA'

/-- Claim C5, counterexample: the create-order symmetry fails in general.
Request A reserves node n0 by explicit node list; request B asks for one
node by count. A then B succeeds (the selector steers around A's node), but
B then A fails: B grabs the lowest-indexed node n0 first, and A's explicit
n0 request then hits the overlap check (`ESLURM_INVALID_TIME_VALUE`). -/
theorem create_order_asymmetry_cex :
    chainOK envFix reqNodeA reqCntB stEmpty = true ∧
    chainOK envFix reqCntB reqNodeA stEmpty = false := ⟨rfl, rfl⟩

/-- Claim C5 (amended): the pairwise overlap check holds exactly when the
windows intersect under the half-open test (s < other.end and other.start <
e) and the node bitmaps share a set bit; a request whose start equals an
existing reservation's end does not conflict; and the create-order symmetry
does hold for pairs of requests that carry explicit names and node lists. -/
theorem resv_overlap_halfopen_symm (env : Env) (a b : Req) (st : State)
    (r : Resv) (s e : Int) (bm : List Bool) (nmA nlA nmB nlB : String)
    (hna : a.name = some nmA) (hnla : a.node_list = some nlA)
    (hnb : b.name = some nmB) (hnlb : b.node_list = some nlB) :
    (overlapsWith r s e bm = true ↔
      (s < r.end_time ∧ r.start_time < e ∧
       ∃ rb, r.node_bitmap = some rb ∧
         ∃ i, bit_test rb i = true ∧ bit_test bm i = true)) ∧
    (r.end_time = s → overlapsWith r s e bm = false) ∧
    chainOK env a b st = chainOK env b a st := by
  refine ⟨overlapsWith_true_iff r s e bm, ?_, ?_⟩
  · intro hes
    unfold overlapsWith
    rw [if_pos (by omega)]
  · cases hx : chainOK env a b st with
    | true =>
      exact (chainOK_swap env a b st nmA nlA nmB nlB hna hnla hnb hnlb hx).symm
    | false =>
      cases hy : chainOK env b a st with
      | false => rfl
      | true =>
        have h2 := chainOK_swap env b a st nmB nlB nmA nlA hnb hnlb hna hnla hy
        rw [hx] at h2
        exact h2

/-- Witness for C5: reservation "R" over [5000, 6000) on node 0 against a
request window starting exactly at its end, and the two fixture requests
with explicit names and node lists in both orders. -/
theorem resv_overlap_halfopen_symm_witness :
    ((overlapsWith resvR 6000 7000 [true, false] = true ↔
      ((6000 : Int) < resvR.end_time ∧ resvR.start_time < (7000 : Int) ∧
       ∃ rb, resvR.node_bitmap = some rb ∧
         ∃ i, bit_test rb i = true ∧ bit_test [true, false] i = true)) ∧
     (resvR.end_time = (6000 : Int) → overlapsWith resvR 6000 7000 [true, false] = false) ∧
     chainOK envFix reqNodeA reqBothNodes stEmpty =
       chainOK envFix reqBothNodes reqNodeA stEmpty) :=
  resv_overlap_halfopen_symm envFix reqNodeA reqBothNodes stEmpty resvR 6000 7000
    [true, false] "A" "n0" "Y" "nBoth" rfl rfl rfl rfl

end Slurm
